import Mathlib

/-!
# Verification of ibllib descriptor aggregation, pipeline building and drift estimation

Shallow embedding of the parts of `anne-urai/ibllib` relevant to the frozen claims:

* `ibllib/io/session_params.py` — `merge_params`, `aggregate_device`, the
  descriptor query accessors (`get_task_collection`, `get_task_protocol_number`);
* `ibllib/pipes/dynamic_pipeline.py` — `make_pipeline`;
* `ibllib/io/extractors/widefield.py` — `Widefield.sync_timestamps`;
* `brainbox/metrics/electrode_drift.py` — `estimate_drift`.

YAML/Python data values are modelled by the inductive type `Val` (strings,
lists, dicts); Python dicts are insertion-ordered association lists with
unique keys.  Machine floats are modelled as rationals.  Fallible Python code
(raises) is modelled with `Except`.
-/

set_option maxHeartbeats 1000000

/-- A Python/YAML value as appearing in experiment description files:
a scalar (string-like), a list, or an insertion-ordered dict. -/
inductive Val where
  | str (s : String)
  | vlist (l : List Val)
  | vdict (d : List (String × Val))

mutual

/-- Python `==` on values (structural equality), mutually with lists/dicts. -/
def Val.beq : Val → Val → Bool
  | .str a, .str b => a == b
  | .vlist a, .vlist b => Val.beqL a b
  | .vdict a, .vdict b => Val.beqD a b
  | _, _ => false

def Val.beqL : List Val → List Val → Bool
  | [], [] => true
  | a :: as, b :: bs => Val.beq a b && Val.beqL as bs
  | _, _ => false

def Val.beqD : List (String × Val) → List (String × Val) → Bool
  | [], [] => true
  | (k1, a) :: as, (k2, b) :: bs => k1 == k2 && Val.beq a b && Val.beqD as bs
  | _, _ => false

end

/-- An experiment description dictionary (Python dict: ordered assoc list). -/
abbrev Desc := List (String × Val)

/-- Python `d.get(k)` / `d[k]`: first (and, for genuine dicts, only) binding. -/
def dget : Desc → String → Option Val
  | [], _ => none
  | (k1, v1) :: rest, k => if k1 = k then some v1 else dget rest k

/-- Python `d[k] = v`: replace the value in place if the key exists
(keeping its position), otherwise append the new binding. -/
def dset : Desc → String → Val → Desc
  | [], k, v => [(k, v)]
  | (k1, v1) :: rest, k, v =>
    if k1 = k then (k1, v) :: rest else (k1, v1) :: dset rest k v

/-- Python `x in s` membership using `==` (`Val.beq`). -/
def memV (x : Val) (l : List Val) : Bool := l.any (fun y => Val.beq x y)

/-- Deduplicate a list keeping first occurrences (the element set of a
Python `set(...)` built from the list). -/
def dedupV (l : List Val) : List Val :=
  l.foldl (fun acc x => if memV x acc then acc else acc ++ [x]) []

/-- `list(set(p) ^ set(b))`: the symmetric difference of the two element
sets.  Python's set iteration order is unspecified; we fix one canonical
linearization (first-occurrence order over `p ++ b`).  All facts we prove
about merged lists are stated via element counts and are therefore
independent of this choice of order. -/
def symmDiffV (p b : List Val) : List Val :=
  (dedupV (p ++ b)).filter (fun x => memV x p != memV x b)

/-- Python `{**a, **b}` (shallow dict union, `b` wins, insertion order kept). -/
def dunion (a b : Desc) : Desc := b.foldl (fun acc p => dset acc p.1 p.2) a

/-- `ibllib.io.session_params.merge_params` (without the `copy` flag; see
`merge_params_ref` for the in-place/copy semantics).  Faithful translation of

```python
for k in b:
    if k == 'sync':
        assert k not in a or a[k] == b[k], 'multiple sync fields defined'
    if isinstance(b[k], list):
        prev = a.get(k, [])
        # For procedures and projects, remove duplicates
        to_add = b[k] if k == 'tasks' else set(prev) ^ set(b[k])
        a[k] = prev + list(to_add)
    elif isinstance(b[k], dict):
        a[k] = {**a.get(k, {}), **b[k]}
    else:  # A string
        a[k] = b[k]
return a
```

A failed `assert` raises `AssertionError`; `prev + list(to_add)` (resp. the
`**`-splat) raises `TypeError` when the existing value for `k` is not a list
(resp. not a dict); both are modelled with `Except.error`. -/
def merge_params : Desc → Desc → Except String Desc
  | a, [] => .ok a
  | a, (k, bv) :: rest =>
    if k == "sync" && (match dget a k with
        | some av => !Val.beq av bv
        | none => false) then
      .error "multiple sync fields defined"
    else
      match bv with
      | .vlist bl =>
        match dget a k with
        | some (.vlist prev) =>
          let toAdd := if k = "tasks" then bl else symmDiffV prev bl
          merge_params (dset a k (.vlist (prev ++ toAdd))) rest
        | none =>
          let toAdd := if k = "tasks" then bl else symmDiffV [] bl
          merge_params (dset a k (.vlist toAdd)) rest
        | some _ => .error "TypeError"
      | .vdict bd =>
        match dget a k with
        | some (.vdict ad) => merge_params (dset a k (.vdict (dunion ad bd))) rest
        | none => merge_params (dset a k (.vdict bd)) rest
        | some _ => .error "TypeError"
      | .str s => merge_params (dset a k (.str s)) rest

/-- Number of bindings of key `k` in a dict. -/
def countKey (d : Desc) (k : String) : Nat := (d.map Prod.fst).count k

/-- Number of occurrences (under Python `==`) of `x` in a value list. -/
def countV (x : Val) (l : List Val) : Nat := (l.filter (fun y => Val.beq x y)).length

/-! ## In-place mutation model for `merge_params` (claim about aliasing)

Python dicts are heap objects; `merge_params(a, b, copy=False)` mutates the
dict object passed as `a` and returns that very object, while
`copy=True` first deep-copies `a` into a fresh object.  We model the heap of
dict objects as a list of descriptors indexed by address. -/

/-- `merge_params(a, b, copy)` over an explicit object store.  Addresses
`ia`, `ib` index the store; the result is the updated store together with
the address of the returned object.  On a raised `AssertionError`/`TypeError`
no value is returned (the exception propagates). -/
def merge_params_ref (store : List Desc) (ia ib : Nat) (copy : Bool) :
    Except String (List Desc × Nat) :=
  let a := store.getD ia []
  let b := store.getD ib []
  match merge_params a b with
  | .error e => .error e
  | .ok m =>
    if copy then
      -- `a = deepcopy(a)`: a fresh object is allocated and mutated instead
      .ok (store ++ [m], store.length)
    else
      -- the object at `ia` is mutated in place and its address returned
      .ok (store.set ia m, ia)

/-! ## File-system model for `aggregate_device` -/

/-- The slice of the file system that `aggregate_device` touches:
the device stub file, the target acquisition description file, and the
`.lock` sentinel file next to it.  `none` = file absent; the stub being
`some []` models an unparseable/empty yaml file (`read_params` returns a
falsy value for it). -/
structure FState where
  device : Option Desc
  target : Option Desc
  lock : Bool

/-- `ibllib.io.session_params.aggregate_device`.  Returns the final file
system together with the Python return value (`None` when the stub is empty)
or the raised exception.  The retry/sleep loop spins on the lock file; with
no concurrent writer in the model the lock, if present, is still there after
the retries and is deleted as stale; the function then writes its own lock,
reads the target (or `{}`), merges the stub into it (which may raise
`AssertionError 'multiple sync fields defined'`), writes the merge result to
the target file, removes the lock and optionally deletes the stub. -/
def aggregate_device (fs : FState) (unlinkStub : Bool) :
    FState × Except String (Option Desc) :=
  match fs.device with
  | none => (fs, .ok none)              -- `if not data_device: ... return`
  | some d =>
    if d.isEmpty then (fs, .ok none)    -- empty stub: logged and ignored
    else
      -- stale-lock removal (if any), then our own lock is written
      let fs1 : FState := { fs with lock := true }
      let acq := fs.target.getD []      -- read target, or `{}` if absent
      match merge_params acq d with
      | .error e => (fs1, .error e)     -- exception: target and lock untouched
      | .ok m =>
        let fs2 : FState := { fs1 with target := some m, lock := false }
        let fs3 : FState := if unlinkStub then { fs2 with device := none } else fs2
        (fs3, .ok (some m))

/-! ## Descriptor query accessors (`get_task_collection`, `get_task_protocol_number`)

Per the data model, the `tasks` field is a list of single-protocol dicts
`{protocol: {collection: ..., protocol_number: ...}}`; we model the
accessors' protocol-lookup paths over such a list. -/

/-- Errors raised by the accessors. -/
inductive PyErr where
  | attributeError
  deriving DecidableEq

/-- `get_task_collection(sess_params, task_protocol)` for a given protocol:

```python
protocols = sess_params.get('tasks', [])
task = next((x for x in protocols if task_protocol in x), None)
return (task.get(task_protocol) or {}).get('collection')
```

When no task dict contains the protocol, `task` is `None` and
`None.get(task_protocol)` raises `AttributeError`.  When the protocol's
value is falsy (`None`/`{}`) the `or {}` substitutes an empty dict. -/
def get_task_collection (tasks : List Desc) (task_protocol : String) :
    Except PyErr (Option Val) :=
  match tasks.find? (fun x => (dget x task_protocol).isSome) with
  | none => .error .attributeError
  | some task =>
    match dget task task_protocol with
    | some (.vdict td) => .ok (dget td "collection")
    | _ => .ok none                     -- falsy value replaced by `{}`

/-- `get_task_protocol_number(sess_params, task_protocol)` for a given
protocol; same lookup shape as `get_task_collection`, with a string
protocol number converted with `int(...)`. -/
def get_task_protocol_number (tasks : List Desc) (task_protocol : String) :
    Except PyErr (Option Val) :=
  match tasks.find? (fun x => (dget x task_protocol).isSome) with
  | none => .error .attributeError
  | some task =>
    match dget task task_protocol with
    | some (.vdict td) => .ok (dget td "protocol_number")
    | _ => .ok none

/-! ## The dynamic pipeline builder (`ibllib.pipes.dynamic_pipeline.make_pipeline`)

`make_pipeline` reads the acquisition description and creates task objects
one by one, each with a `parents` list referring to task objects created
before it (looked up in the `tasks` ordered dict or held in local variables).
We model a task object by its (dynamic) class name and the creation indices
of its parents; the pipeline is the list of created tasks in creation order.
The registries of task classes (`ibllib.pipes.behavior_tasks`,
`projects.extraction_tasks`) live outside this repository and are passed in
as a plain list of available class names. -/

/-- A created task object: dynamic class name, and parents as indices into
the creation-order list of tasks. -/
structure PTask where
  name : String
  parents : List Nat

/-- Append a freshly constructed task; returns the new state and the
address (creation index) of the new task object. -/
def addT (b : List PTask) (n : String) (ps : List Nat) : List PTask × Nat :=
  (b ++ [⟨n, ps⟩], b.length)

/-- Prefix test over character lists. -/
def chPre : List Char → List Char → Bool
  | [], _ => true
  | _ :: _, [] => false
  | a :: as, b :: bs => a == b && chPre as bs

/-- Substring test over character lists: does `t` occur inside the second
list? -/
def chSub (t : List Char) : List Char → Bool
  | [] => chPre t []
  | c :: rest => chPre t (c :: rest) || chSub t rest

/-- Python `t in s` substring test. -/
def hasSub (s t : String) : Bool := chSub t.toList s.toList

/-- Python `s.lower()` containment: `t in s.lower()`. -/
def lowerHasSub (s t : String) : Bool :=
  chSub t.toList (s.toList.map Char.toLower)

/-- Python `str.capitalize()`: first character upper-cased, the rest
lower-cased. -/
def pyCapitalize (s : String) : String :=
  match s.toList with
  | [] => ⟨[]⟩
  | c :: rest => ⟨Char.toUpper c :: rest.map Char.toLower⟩

/-- Two-digit formatting of the protocol index, Python `f'{i:02}'`. -/
def pad2 (i : Nat) : String := if i < 10 then "0" ++ toString i else toString i

/-- One entry of `acquisition_description['sync']`. -/
structure SyncEntry where
  label : String
  collection : Option String
  sync_ext : Option String
  acquisition_software : Option String

/-- One (protocol, task-info) pair from the flattened
`chain(*map(dict.items, acquisition_description['tasks']))` enumeration.
`extractors = []` models a missing/falsy `extractors` key (legacy branch). -/
structure TaskEntry where
  protocol : String
  extractors : List String

/-- One neuropixel probe with the probe type and shank count read from its
spikeglx metadata file (an external file read, passed in as data). -/
structure ProbeEntry where
  pname : String
  nptype : String
  nshanks : Nat

/-- The `cameras` device entry: camera names and whether the videos are
pre-compressed (`sess_params.get_video_compressed`). -/
structure CamerasEntry where
  names : List String
  compressed : Bool

/-- The parsed acquisition description as consumed by `make_pipeline`.
Optional device sections model key presence in `devices`. -/
structure AcqDesc where
  sync : List SyncEntry
  taskList : List TaskEntry
  neuropixel : Option (List ProbeEntry)
  cameras : Option CamerasEntry
  microphone : Bool
  widefield : Bool
  mesoscope : Bool
  photometry : Bool

/-- The available class names of `ibllib.pipes.behavior_tasks` and of the
external `projects.extraction_tasks` module (plug-in registry). -/
structure Registry where
  btasks : List String
  projects : List String

/-- The sync subgraph (lines 158-174): selects the sync task kinds from the
sync label, collection and acquisition software, and returns the list of
sync pulse tasks every downstream consumer depends on. -/
def buildSync (b : List PTask) (sync : String) (syncColl : String)
    (syncNs : Option String) : List PTask × List Nat :=
  if sync = "nidq" && syncColl = "raw_ephys_data" then
    let (b, i1) := addT b "SyncRegisterRaw" []
    let (b, i2) := addT b ("SyncPulses_" ++ sync) [i1]
    (b, [i2])
  else if syncNs = some "timeline" then
    let (b, _) := addT b "SyncRegisterRaw" []
    (b, [])
  else if sync = "nidq" then
    let (b, i1) := addT b "SyncRegisterRaw" []
    let (b, i2) := addT b ("SyncPulses_" ++ sync) [i1]
    (b, [i2])
  else if sync = "tdms" then
    let (b, _) := addT b "SyncRegisterRaw" []
    (b, [])
  else
    (b, [])   -- 'bpod' (and anything else): no sync task

/-- Collision check (lines 194-196): an extractor whose lowercase name
contains a sync option other than the session's sync raises `ValueError`. -/
def collisionCheck (sync ex : String) : Except String Unit :=
  if lowerHasSub ex "nidq" && !(sync = "nidq") then
    .error "Extractor and sync do not match"
  else if lowerHasSub ex "bpod" && !(sync = "bpod") then
    .error "Extractor and sync do not match"
  else .ok ()

/-- Extractor lookup (lines 198-210): the behavior-tasks module, then the
same name suffixed with the capitalized sync label, then the external
projects registry; otherwise `NotImplementedError`. -/
def resolveExtractor (reg : Registry) (sync : String) (ex : String) :
    Except String String :=
  if reg.btasks.contains ex then .ok ex
  else if reg.btasks.contains (ex ++ pyCapitalize sync) then .ok (ex ++ pyCapitalize sync)
  else if reg.projects.contains ex then .ok ex
  else .error "Extractor not found in main IBL pipeline nor in personal projects"

/-- `[] if j == 0 else [tasks[task_name]]`: the previous chain step as a
parent list. -/
def prevList : Option Nat → List Nat
  | none => []
  | some p => [p]

/-- The explicit extractor chain of one protocol (lines 187-221): each
step's task is parented on the previous step's task, and the second step
(`j == 1`) additionally on the sync tasks. -/
def buildChain (reg : Registry) (sync : String) (syncTasks : List Nat) (i : Nat) :
    List PTask → List String → Nat → Option Nat → Except String (List PTask)
  | b, [], _, _ => .ok b
  | b, ex :: rest, j, prev =>
    match collisionCheck sync ex with
    | .error e => .error e
    | .ok _ =>
      match resolveExtractor reg sync ex with
      | .error e => .error e
      | .ok nm =>
        let taskName := nm ++ "_" ++ pad2 i
        let parents2 := if j = 1 then prevList prev ++ syncTasks else prevList prev
        let r := addT b taskName parents2
        buildChain reg sync syncTasks i r.1 rest (j + 1) (some r.2)

/-- The legacy behavior block of one protocol without declared extractors
(lines 222-252): a registration task, a trials task parented on it and on
the sync tasks, and optionally a training-status task parented on the
trials task.  The selected task classes (`HabituationRegisterRaw` /
`PassiveRegisterRaw` / `TrialRegisterRaw`, ...) only matter here through
the `compute_status` flag and the `NotImplementedError` case. -/
def selLegacy (sync protocol : String) : Except String Bool :=
  if hasSub protocol "habituation" then .ok false
  else if hasSub protocol "passiveChoiceWorld" then .ok false
  else if sync = "bpod" then .ok true
  else if sync = "nidq" then .ok true
  else .error "NotImplementedError"

def buildLegacy (b : List PTask) (sync : String) (syncTasks : List Nat)
    (i : Nat) (protocol : String) : Except String (List PTask) :=
  match selLegacy sync protocol with
  | .error e => .error e
  | .ok computeStatus =>
    let r1 := addT b ("RegisterRaw_" ++ protocol ++ "_" ++ pad2 i) []
    let r2 := addT r1.1 ("Trials_" ++ protocol ++ "_" ++ pad2 i) ([r1.2] ++ syncTasks)
    if computeStatus then
      .ok (addT r2.1 ("TrainingStatus_" ++ protocol ++ "_" ++ pad2 i) [r2.2]).1
    else .ok r2.1

/-- The behavior-tasks loop (lines 177-252) over the flattened, enumerated
protocol list. -/
def buildBehavior (reg : Registry) (sync : String) (syncTasks : List Nat) :
    List PTask → List TaskEntry → Nat → Except String (List PTask)
  | b, [], _ => .ok b
  | b, te :: rest, i =>
    match (if te.extractors.isEmpty then buildLegacy b sync syncTasks i te.protocol
           else buildChain reg sync syncTasks i b te.extractors 0 none) with
    | .error e => .error e
    | .ok b2 => buildBehavior reg sync syncTasks b2 rest (i + 1)

/-- One iteration of the probe compression loop (lines 261-281): creates a
compression task for the probe (kind selected from the probe generation and
shank count) and returns the labels added to `all_probes` together with the
`(name, index)` of the created registration/compression task. -/
def buildProbeCompress (b : List PTask) (p : ProbeEntry) :
    List PTask × List String × (String × Nat) :=
  if p.nptype = "NP2.1" || (p.nptype = "NP2.4" && p.nshanks = 1) then
    let nm := "EphyCompressNP21_" ++ p.pname
    ((addT b nm []).1, [p.pname], (nm, (addT b nm []).2))
  else if p.nptype = "NP2.4" && p.nshanks > 1 then
    let nm := "EphyCompressNP24_" ++ p.pname
    ((addT b nm []).1, (List.range p.nshanks).map
        (fun shank => p.pname ++ String.singleton (Char.ofNat (97 + shank))),
      (nm, (addT b nm []).2))
  else
    -- default (oldest) compression kind; NB the source names the class
    -- 'EphyCompressNP1_...' while keying the dict as 'EphysCompressNP1_...'
    let nm := "EphyCompressNP1_" ++ p.pname
    ((addT b nm []).1, [p.pname], (nm, (addT b nm []).2))

/-- The probe compression loop folded over all probes, accumulating
`all_probes`, `register_tasks` and the (last) probe type seen. -/
def buildProbesLoop : List PTask → List ProbeEntry →
    List String → List (String × Nat) →
    Option String → List PTask × List String × List (String × Nat) × Option String
  | b, [], aps, regs, npt => (b, aps, regs, npt)
  | b, p :: rest, aps, regs, _ =>
    let r := buildProbeCompress b p
    buildProbesLoop r.1 rest (aps ++ r.2.1) (regs ++ [r.2.2]) (some p.nptype)

/-- One iteration of the per-probe subgraph loop (lines 287-302):
pulse-extraction (non-3A), spike sorting, raw QC, cell QC.  `iEP3A` is the
session-wide `EphysPulses` task, present only for 3A probes. -/
def buildProbeTasks (b : List PTask) (syncTasks : List Nat)
    (regs : List (String × Nat)) (iEP3A : Option Nat) (pname : String) :
    List PTask :=
  let registerTask := (regs.filter
    (fun rt => chSub (pname.toList.take 7) rt.1.toList)).map Prod.snd
  match iEP3A with
  | none =>
    let r1 := addT b ("EphysPulses_" ++ pname) (registerTask ++ syncTasks)
    let r2 := addT r1.1 ("Spikesorting_" ++ pname) [r1.2]
    let r3 := addT r2.1 ("RawEphysQC_" ++ pname) registerTask
    (addT r3.1 ("EphysCellQC_" ++ pname) [r2.2]).1
  | some iEP =>
    let r2 := addT b ("Spikesorting_" ++ pname) [iEP]
    let r3 := addT r2.1 ("RawEphysQC_" ++ pname) registerTask
    (addT r3.1 ("EphysCellQC_" ++ pname) [r2.2]).1

/-- The ephys block (lines 255-302). An empty `neuropixel` device dict
leaves the loop variable `nptype` unbound and raises `NameError` at
`if nptype == '3A'`. -/
def buildEphys (b : List PTask) (probes : List ProbeEntry)
    (syncTasks : List Nat) : Except String (List PTask) :=
  let b1 := (addT b "EphysRegisterRaw" []).1
  let r := buildProbesLoop b1 probes [] [] none
  match r.2.2.2 with
  | none => .error "NameError: nptype"
  | some npt =>
    if npt = "3A" then
      let r2 := addT r.1 "EphysPulses" (r.2.2.1.map Prod.snd ++ syncTasks)
      .ok (r.2.1.foldl
        (fun b pname => buildProbeTasks b syncTasks r.2.2.1 (some r2.2) pname) r2.1)
    else
      .ok (r.2.1.foldl
        (fun b pname => buildProbeTasks b syncTasks r.2.2.1 none pname) r.1)

/-- The video block (lines 305-340).  When the sync is neither `bpod` nor
`nidq` and the videos are not pre-compressed, no `VideoSyncQC_{sync}` task
is created and the `PostDLC` parent lookup raises `KeyError`. -/
def buildVideoPre (b : List PTask) (cams : CamerasEntry) (sync : String)
    (syncTasks : List Nat) : List PTask × Nat × Option Nat :=
  if cams.compressed then
    let r1 := addT b "VideoConvert" []
    let r2 := addT r1.1 ("VideoSyncQC_" ++ sync) []
    (r2.1, r1.2, some r2.2)
  else
    let r1 := addT b "VideoRegisterRaw" []
    let r2 := addT r1.1 "VideoCompress" []
    if sync = "bpod" then
      let r3 := addT r2.1 ("VideoSyncQC_" ++ sync) [r2.2]
      (r3.1, r2.2, some r3.2)
    else if sync = "nidq" then
      let r3 := addT r2.1 ("VideoSyncQC_" ++ sync) ([r2.2] ++ syncTasks)
      (r3.1, r2.2, some r3.2)
    else
      (r2.1, r2.2, none)

def buildVideo (b : List PTask) (cams : CamerasEntry) (sync : String)
    (syncTasks : List Nat) : Except String (List PTask) :=
  let rv := buildVideoPre b cams sync syncTasks
  if sync = "bpod" then .ok rv.1
  else
    let rd := addT rv.1 "DLC" [rv.2.1]
    match rv.2.2 with
    | some iv => .ok (addT rd.1 "PostDLC" [rd.2, iv]).1
    | none => .error "KeyError: VideoSyncQC"

/-- The audio block (lines 343-350): a single registration task whose kind
depends on the sync label; no parents either way. -/
def buildAudio (b : List PTask) (sync : String) : List PTask :=
  if sync = "bpod" then (addT b "AudioRegisterRaw" []).1
  else if sync = "nidq" then (addT b "AudioRegisterRaw" []).1
  else b

/-- The widefield block (lines 353-366). -/
def buildWidefield (b : List PTask) (syncTasks : List Nat) : List PTask :=
  let (b, iReg) := addT b "WidefieldRegisterRaw" []
  let (b, iComp) := addT b "WidefieldCompress" [iReg]
  let (b, iPre) := addT b "WidefieldPreprocess" [iComp]
  let (b, _) := addT b "WidefieldSync" ([iReg, iComp] ++ syncTasks)
  let (b, _) := addT b "WidefieldFOV" [iPre]
  b

/-- The mesoscope block (lines 369-381). -/
def buildMesoscope (b : List PTask) : List PTask :=
  let (b, _) := addT b "MesoscopeRegisterSnapshots" []
  let (b, iPre) := addT b "MesoscopePreprocess" []
  let (b, _) := addT b "MesoscopeFOV" [iPre]
  let (b, _) := addT b "MesoscopeSync" []
  let (b, _) := addT b "MesoscopeCompress" [iPre]
  b

/-- The photometry block (lines 383-390). -/
def buildPhotometry (b : List PTask) (syncTasks : List Nat) : List PTask :=
  let (b, iReg) := addT b "FibrePhotometryRegisterRaw" []
  let (b, _) := addT b "FibrePhotometryPreprocess" ([iReg] ++ syncTasks)
  b

/-- `make_pipeline` (lines 121-394) over the parsed acquisition description:
the experiment description registration task, the sync subgraph, the
behavior tasks, then the per-device subgraphs, in source order.  The
`(sync, sync_args), = acquisition_description['sync'].items()` unpacking
requires exactly one sync entry (otherwise `KeyError`/`ValueError`), and
`sync_args.pop('collection')` requires the collection key (`KeyError`). -/
def make_pipeline (reg : Registry) (d : AcqDesc) : Except String (List PTask) :=
  let b0 := (addT [] "ExperimentDescriptionRegisterRaw" []).1
  match d.sync with
  | [se] =>
    match se.collection with
    | none => .error "KeyError: collection"
    | some syncColl =>
      let r1 := buildSync b0 se.label syncColl se.acquisition_software
      match buildBehavior reg se.label r1.2 r1.1 d.taskList 0 with
      | .error e => .error e
      | .ok b2 =>
        match (match d.neuropixel with
          | some probes => buildEphys b2 probes r1.2
          | none => .ok b2) with
        | .error e => .error e
        | .ok b3 =>
          match (match d.cameras with
            | some cams => buildVideo b3 cams se.label r1.2
            | none => .ok b3) with
          | .error e => .error e
          | .ok b4 =>
            let b5 := if d.microphone then buildAudio b4 se.label else b4
            let b6 := if d.widefield then buildWidefield b5 r1.2 else b5
            let b7 := if d.mesoscope then buildMesoscope b6 else b6
            let b8 := if d.photometry then buildPhotometry b7 r1.2 else b7
            .ok b8
  | _ => .error "sync entry unpacking failed"

/-- The graph invariant: every parent edge points to a strictly
earlier-created task. -/
def WFGraph (ts : List PTask) : Prop :=
  ∀ i, (h : i < ts.length) → ∀ p ∈ ts[i].parents, p < i

/-- Modelled from the spec: the task `level` computation lives in
`ibllib.pipes.tasks` which is not part of this repository's sources; spec
§4.3 step 7: "Assign each node a level = 1 + max(level of parents), or 0 if
no parents."  Parent indices are restricted to earlier tasks (which under
`WFGraph` loses nothing) so that the recursion is well founded. -/
def levelOf (ts : List PTask) : Nat → Nat
  | i =>
    match ts[i]? with
    | none => 0
    | some t =>
      if t.parents.isEmpty then 0
      else (((t.parents.filter (· < i)).attach.map
        (fun p => levelOf ts p.1)).foldl Nat.max 0) + 1
decreasing_by
  · have hp := p.2
    simp only [List.mem_filter, decide_eq_true_eq] at hp
    exact hp.2

/-! ## Widefield clock synchronization (`Widefield.sync_timestamps`)

Timestamps (float64 in the source) are modelled as rationals.  The actual
linear fit is performed by `neurodsp.utils.sync_timestamps`, an external
library function; it is passed in as a parameter `fit` returning the mapping
function, the drift in ppm and the index correspondence. -/

/-- Strictly-increasing check, `np.all(np.diff(v) > 0)`. -/
def strictIncB : List ℚ → Bool
  | [] => true
  | [_] => true
  | a :: b :: rest => a < b && strictIncB (b :: rest)

/-- A trivial stand-in for the external `neurodsp.utils.sync_timestamps`
fit (identity mapping, zero drift), used to instantiate theorems. -/
def fitId : List ℚ → List ℚ → (ℚ → ℚ) × ℚ × List Nat × List Nat :=
  fun _ _ => (id, 0, [], [])

/-- `Widefield.sync_timestamps` (lines 143-183), from the point where the
led timestamps, the video frame count and the DAQ-detected led up-fronts
are in hand.  Checks, in source order: the led/video frame count difference
must be in `[0, 2]`; the led list is truncated to the video length and
converted from ms to s; the led and DAQ pulse counts must agree **exactly**
(zero tolerance, 'Sync mismatch'); only then is the linear fit computed,
and the mapped timestamps must come out strictly increasing. -/
def widefield_sync_timestamps
    (fit : List ℚ → List ℚ → (ℚ → ℚ) × ℚ × List Nat × List Nat)
    (ledTimestampsMs : List ℚ) (videoLength : Nat) (fpgaLedUp : List ℚ) :
    Except String ((ℚ → ℚ) × ℚ × List Nat × List Nat × List ℚ) :=
  let diff : Int := (ledTimestampsMs.length : Int) - (videoLength : Int)
  if diff < 0 then .error "More video frames than led frames detected"
  else if diff > 2 then .error "Led frames and video frames differ by more than 2"
  else
    let led := ledTimestampsMs.take videoLength
    let ledTimes := led.map (fun t => t / 1000)
    if ledTimes.length ≠ fpgaLedUp.length then .error "Sync mismatch"
    else
      let r := fit ledTimes fpgaLedUp
      let widefieldTimes := ledTimes.map r.1
      if strictIncB widefieldTimes then
        .ok (r.1, r.2.1, r.2.2.1, r.2.2.2, widefieldTimes)
      else .error "AssertionError: non-monotonic timestamps"

/-! ## Electrode drift estimation (`brainbox.metrics.electrode_drift.estimate_drift`)

The 3-D histogram and the frequency-domain cross-correlation produce, per
time bin, a row of correlation values over depth lags; the claims concern
the peak-picking and smoothing stage (lines 44-49), which we embed for an
arbitrary cross-correlation matrix — the bound below therefore holds for
every input spike set, whatever values the spectral front end produces. -/

/-- `NXCORR = 50`: positive and negative lag in depth samples. -/
def NXCORR : Nat := 50

/-- `DEPTH_BIN_UM = 2`: depth bin size in micrometers. -/
def DEPTH_BIN_UM : Int := 2

/-- `np.c_[xcorr[:, -NXCORR:], xcorr[:, :NXCORR + 1]]` applied to one row:
the bounded lag window of the circular cross-correlation. -/
def lagWindow (row : List ℚ) : List ℚ :=
  row.drop (row.length - NXCORR) ++ row.take (NXCORR + 1)

/-- Helper for `np.argmax`: scan with the best index/value so far,
keeping the first occurrence of the maximum. -/
def argmaxAux : List ℚ → Nat → Nat → ℚ → Nat
  | [], _, best, _ => best
  | x :: rest, i, best, bv =>
    if bv < x then argmaxAux rest (i + 1) i x else argmaxAux rest (i + 1) best bv

/-- `np.argmax` over one row (0 on the empty row, on which numpy raises). -/
def argmaxIdx : List ℚ → Nat
  | [] => 0
  | x :: rest => argmaxAux rest 1 0 x

/-- `raw_drift = (np.argmax(xcorr, axis=-1) - NXCORR) * DEPTH_BIN_UM`
(line 47), with the lag-window slicing of line 44: per time bin, the
correlation peak position within the bounded lag window as an integer
number of depth bins, converted to micrometers. -/
def raw_drift (xcorr : List (List ℚ)) : List Int :=
  xcorr.map (fun row => ((argmaxIdx (lagWindow row) : Int) - (NXCORR : Int)) * DEPTH_BIN_UM)

/-- Modelled from the spec: `ibllib.dsp.smooth.rolling_window` is not among
this repository's source files; spec §4.6: "convert to physical units and
smooth over time with a fixed-length window (e.g. Hanning) to suppress
bin-level noise".  A normalized moving average: the signal is edge-reflected
and convolved with the window weights divided by their sum (for the Hanning
window all weights are nonnegative). -/
def rolling_window (w : List ℚ) (x : List ℚ) : List ℚ :=
  let s := ((x.drop 1).take (w.length - 1)).reverse ++ x ++ (x.reverse.take (w.length - 1))
  (List.range (s.length + 1 - w.length)).map (fun i =>
    (((s.drop i).take w.length).zip w).foldl (fun acc p => acc + p.1 * p.2) 0
      / w.foldl (fun acc q => acc + q) 0)

/-- The smoothed drift curve (lines 47-48): `smooth.rolling_window` applied
to the raw integer-bin drift, for a given smoothing window `w`
(`np.hanning(NT_SMOOTH)` in the source). -/
def estimate_drift (w : List ℚ) (xcorr : List (List ℚ)) : List ℚ :=
  rolling_window w ((raw_drift xcorr).map (fun z => ((z : ℤ) : ℚ)))

/-! ## Side conditions for the merge theorems -/

/-- Per-key type compatibility of `b`'s value with `a`'s existing value:
a list may only meet a list or nothing, a dict only a dict or nothing
(otherwise `merge_params` raises `TypeError`, outside this claim's scope).
Schema-conforming experiment descriptions always satisfy this. -/
def compat1 (a : Desc) (k : String) : Val → Bool
  | .vlist _ => match dget a k with
    | some (.vlist _) => true
    | none => true
    | some _ => false
  | .vdict _ => match dget a k with
    | some (.vdict _) => true
    | none => true
    | some _ => false
  | .str _ => true

/-- All of `b`'s entries are type-compatible with `a`. -/
def compatB (a b : Desc) : Bool := b.all (fun p => compat1 a p.1 p.2)

/-- Every `sync` entry of `b` agrees (Python `==`) with `a`'s `sync` value,
if `a` has one. -/
def syncOkB (a b : Desc) : Bool :=
  b.all (fun p => !(p.1 == "sync") || (match dget a "sync" with
    | some av => Val.beq av p.2
    | none => true))

/-! # Theorems -/

/-- C2: the claim that every list-valued key other than `tasks` gets the
*deduplicated* union is false on the code.  `set(prev) ^ set(b[k])` is the
symmetric difference, so an element present in `a` only is re-appended:
merging `{'procedures': ['a']}` with `{'procedures': ['b']}` yields a
procedures list containing `'a'` twice.  (The element multiset of the
result is independent of Python's unspecified set iteration order.)  This
contradicts the source's own comment "For procedures and projects, remove
duplicates". -/
theorem merge_params_duplicates_procedures :
    ∃ l, merge_params [("procedures", Val.vlist [.str "a"])]
        [("procedures", Val.vlist [.str "b"])]
      = .ok [("procedures", Val.vlist l)] ∧ countV (.str "a") l = 2 :=
  ⟨[.str "a", .str "a", .str "b"], rfl, rfl⟩

/-- C3: associativity of `merge_params` fails on the code for list-valued
fields, because of the symmetric-difference slip: with
`a = c = {'procedures': ['a']}` and `b = {'procedures': ['b']}`,
`merge(merge(a,b),c)` contains `'a'` twice while `merge(a,merge(b,c))`
contains it once — unequal whatever order Python's sets are iterated in. -/
theorem merge_params_not_associative :
    ∃ m1 m2 l1 l2,
      merge_params [("procedures", Val.vlist [.str "a"])]
          [("procedures", Val.vlist [.str "b"])] = .ok m1 ∧
      merge_params m1 [("procedures", Val.vlist [.str "a"])]
        = .ok [("procedures", Val.vlist l1)] ∧
      merge_params [("procedures", Val.vlist [.str "b"])]
          [("procedures", Val.vlist [.str "a"])] = .ok m2 ∧
      merge_params [("procedures", Val.vlist [.str "a"])] m2
        = .ok [("procedures", Val.vlist l2)] ∧
      countV (.str "a") l1 = 2 ∧ countV (.str "a") l2 = 1 :=
  ⟨[("procedures", Val.vlist [.str "a", .str "a", .str "b"])],
   [("procedures", Val.vlist [.str "b", .str "b", .str "a"])],
   [.str "a", .str "a", .str "b", .str "b"], [.str "a", .str "b"],
   rfl, rfl, rfl, rfl, rfl, rfl⟩

/-- C7: looking up the collection or protocol number of a protocol that is
not present in the task list raises `AttributeError`
(`next(..., None)` yields `None` and `None.get(...)` is called), instead of
returning `None` as the claim — and the functions' own docstrings
("or None if protocol not present") — state. -/
theorem get_task_accessors_raise_on_missing_protocol :
    get_task_collection [[("taskA", Val.vdict [("collection", Val.str "raw_task_data_00")])]]
        "taskB" = .error .attributeError ∧
    get_task_protocol_number [[("taskA", Val.vdict [("protocol_number", Val.str "0")])]]
        "taskB" = .error .attributeError :=
  ⟨rfl, rfl⟩

/-- C6 counterexample: a call to `aggregate_device` that proceeds past the
empty-stub check and then hits the sync-conflict merge error returns with
the lock file still present — there is no `try/finally` around the merge,
so the claim that the lock is removed "whether the call completes normally
or raises" is false. -/
theorem aggregate_device_stale_lock_on_merge_error :
    (aggregate_device
      ⟨some [("sync", Val.vdict [("nidq", Val.str "raw_ephys_data")])],
       some [("sync", Val.vdict [("bpod", Val.str "raw_behavior_data")])],
       false⟩ false).1.lock = true ∧
    (aggregate_device
      ⟨some [("sync", Val.vdict [("nidq", Val.str "raw_ephys_data")])],
       some [("sync", Val.vdict [("bpod", Val.str "raw_behavior_data")])],
       false⟩ false).2 = .error "multiple sync fields defined" :=
  ⟨rfl, rfl⟩

/-- C5: when merging the device stub into the current target descriptor
raises (the sync-conflict `AssertionError`), `aggregate_device` aborts
before the target file is written: the previous target descriptor file
contents are unchanged. -/
theorem aggregate_device_merge_error_target_unchanged
    (fs : FState) (u : Bool) (d : Desc) (e : String)
    (hd : fs.device = some d) (hne : d.isEmpty = false)
    (hm : merge_params (fs.target.getD []) d = .error e) :
    (aggregate_device fs u).1.target = fs.target := by
  simp [aggregate_device, hd, hne, hm]

/-- Witness for `aggregate_device_merge_error_target_unchanged` at a
concrete conflicting stub/target pair. -/
theorem aggregate_device_merge_error_target_unchanged_witness :
    (FState.device ⟨some [("sync", Val.vdict [("nidq", Val.str "x")])],
        some [("sync", Val.vdict [("bpod", Val.str "y")])], false⟩
      = some [("sync", Val.vdict [("nidq", Val.str "x")])]) ∧
    ([("sync", Val.vdict [("nidq", Val.str "x")])] : Desc).isEmpty = false ∧
    merge_params [("sync", Val.vdict [("bpod", Val.str "y")])]
        [("sync", Val.vdict [("nidq", Val.str "x")])]
      = .error "multiple sync fields defined" ∧
    (aggregate_device
      ⟨some [("sync", Val.vdict [("nidq", Val.str "x")])],
       some [("sync", Val.vdict [("bpod", Val.str "y")])], false⟩ true).1.target
      = some [("sync", Val.vdict [("bpod", Val.str "y")])] :=
  ⟨rfl, rfl, rfl,
    aggregate_device_merge_error_target_unchanged
      ⟨some [("sync", Val.vdict [("nidq", Val.str "x")])],
       some [("sync", Val.vdict [("bpod", Val.str "y")])], false⟩ true
      [("sync", Val.vdict [("nidq", Val.str "x")])]
      "multiple sync fields defined" rfl rfl rfl⟩

/-- C6 (amended): a call past the empty-stub check removes its lock file
when it completes normally; when the merge raises, the lock file is left
behind (reclaimed as stale only by a later call). -/
theorem aggregate_device_lock_cleanup
    (fs : FState) (u : Bool) (d : Desc)
    (hd : fs.device = some d) (hne : d.isEmpty = false) :
    ((∃ m, (aggregate_device fs u).2 = .ok m) →
      (aggregate_device fs u).1.lock = false) ∧
    (∀ e, (aggregate_device fs u).2 = .error e →
      (aggregate_device fs u).1.lock = true) := by
  constructor
  · rintro ⟨m, hm⟩
    revert hm
    simp only [aggregate_device, hd, hne, Bool.false_eq_true, if_false]
    cases hmm : merge_params (fs.target.getD []) d with
    | error e => simp
    | ok m2 => cases u <;> simp
  · intro e he
    revert he
    simp only [aggregate_device, hd, hne, Bool.false_eq_true, if_false]
    cases hmm : merge_params (fs.target.getD []) d with
    | error e2 => simp
    | ok m2 => cases u <;> simp

/-- Witness for `aggregate_device_lock_cleanup`: a non-conflicting stub
(normal completion, lock removed) evaluated through the theorem. -/
theorem aggregate_device_lock_cleanup_witness :
    (FState.device ⟨some [("version", Val.str "1.0.0")], none, false⟩
      = some [("version", Val.str "1.0.0")]) ∧
    ([("version", Val.str "1.0.0")] : Desc).isEmpty = false ∧
    (aggregate_device ⟨some [("version", Val.str "1.0.0")], none, false⟩ false).1.lock
      = false :=
  ⟨rfl, rfl,
    (aggregate_device_lock_cleanup ⟨some [("version", Val.str "1.0.0")], none, false⟩
        false [("version", Val.str "1.0.0")] rfl rfl).1
      ⟨some [("version", Val.str "1.0.0")], rfl⟩⟩

/-- C10: with `copy=False` (the default), `merge_params` mutates the dict
object passed as `a` in place and returns that very address: afterwards the
object at `ia` holds the merged result, every other object is untouched,
and `aggregate_device` writes exactly the returned merged dict to the
target descriptor file. -/
theorem merge_params_ref_in_place
    (store : List Desc) (ia ib : Nat) (m : Desc)
    (hia : ia < store.length)
    (hm : merge_params (store.getD ia []) (store.getD ib []) = .ok m) :
    merge_params_ref store ia ib false = .ok (store.set ia m, ia) ∧
    (store.set ia m).getD ia [] = m ∧
    (∀ j, j ≠ ia → (store.set ia m).getD j [] = store.getD j []) ∧
    (∀ fs u r, (aggregate_device fs u).2 = .ok (some r) →
      (aggregate_device fs u).1.target = some r) := by
  refine ⟨by simp only [merge_params_ref, hm]; rfl, ?_, ?_, ?_⟩
  · simp [List.getD, List.getElem?_set_self, hia]
  · intro j hj
    simp [List.getD, List.getElem?_set_ne (fun h => hj h.symm)]
  · intro fs u r h
    revert h
    unfold aggregate_device
    cases hd : fs.device with
    | none => simp
    | some d =>
      cases hne : d.isEmpty with
      | true => simp [hne]
      | false =>
        simp only [hne, Bool.false_eq_true, if_false]
        cases hmm : merge_params (fs.target.getD []) d with
        | error e => simp
        | ok m2 =>
          cases u <;> · intro h
                        simp at h
                        simp [← h]

/-- Witness for `merge_params_ref_in_place` on a concrete two-object store. -/
theorem merge_params_ref_in_place_witness :
    (0 : Nat) < ([[("devices", Val.vdict [])],
        [("procedures", Val.vlist [Val.str "p"])]] : List Desc).length ∧
    merge_params
        (([[("devices", Val.vdict [])],
          [("procedures", Val.vlist [Val.str "p"])]] : List Desc).getD 0 [])
        (([[("devices", Val.vdict [])],
          [("procedures", Val.vlist [Val.str "p"])]] : List Desc).getD 1 [])
      = .ok [("devices", Val.vdict []), ("procedures", Val.vlist [Val.str "p"])] ∧
    merge_params_ref [[("devices", Val.vdict [])],
        [("procedures", Val.vlist [Val.str "p"])]] 0 1 false
      = .ok ([[("devices", Val.vdict []), ("procedures", Val.vlist [Val.str "p"])],
              [("procedures", Val.vlist [Val.str "p"])]], 0) :=
  ⟨by decide, rfl,
    (merge_params_ref_in_place
      [[("devices", Val.vdict [])], [("procedures", Val.vlist [Val.str "p"])]] 0 1
      [("devices", Val.vdict []), ("procedures", Val.vlist [Val.str "p"])]
      (by decide) rfl).1⟩

/-! ## Dictionary lemmas -/

theorem dget_dset_self (d : Desc) (k : String) (v : Val) :
    dget (dset d k v) k = some v := by
  induction d with
  | nil => simp [dset, dget]
  | cons p rest ih =>
    obtain ⟨k1, v1⟩ := p
    by_cases h : k1 = k
    · simp [dset, h, dget]
    · simp [dset, h, dget, ih]

theorem dget_dset_ne (d : Desc) (k k2 : String) (v : Val) (h : k2 ≠ k) :
    dget (dset d k v) k2 = dget d k2 := by
  induction d with
  | nil => simp [dset, dget, Ne.symm h]
  | cons p rest ih =>
    obtain ⟨k1, v1⟩ := p
    by_cases h1 : k1 = k
    · subst h1
      simp [dset, dget, Ne.symm h]
    · by_cases h2 : k1 = k2 <;> simp [dset, dget, h1, h2, h, ih]

theorem dget_eq_none_iff (d : Desc) (k : String) :
    dget d k = none ↔ k ∉ d.map Prod.fst := by
  induction d with
  | nil => simp [dget]
  | cons p rest ih =>
    obtain ⟨k1, v1⟩ := p
    by_cases h : k1 = k
    · simp [dget, h]
    · simp [dget, h, ih, Ne.symm h]

theorem keys_dset (d : Desc) (k : String) (v : Val) :
    (dset d k v).map Prod.fst
      = if k ∈ d.map Prod.fst then d.map Prod.fst else d.map Prod.fst ++ [k] := by
  induction d with
  | nil => simp [dset]
  | cons p rest ih =>
    obtain ⟨k1, v1⟩ := p
    by_cases h : k1 = k
    · simp [dset, h]
    · simp only [dset, if_neg h, List.map_cons, ih]
      by_cases h2 : k ∈ rest.map Prod.fst
      · simp [h2, Ne.symm h]
      · simp [h2, Ne.symm h]

theorem nodup_keys_dset (d : Desc) (k : String) (v : Val)
    (h : (d.map Prod.fst).Nodup) : ((dset d k v).map Prod.fst).Nodup := by
  rw [keys_dset]
  by_cases hm : k ∈ d.map Prod.fst
  · simpa [hm] using h
  · rw [if_neg hm, List.nodup_append]
    refine ⟨h, List.nodup_singleton _, ?_⟩
    intro x hx hxk
    rw [List.mem_singleton] at hxk
    exact hm (hxk ▸ hx)

theorem dget_isSome_dset (d : Desc) (k k0 : String) (v : Val)
    (h : (dget d k0).isSome) : (dget (dset d k v) k0).isSome := by
  by_cases hk : k0 = k
  · subst hk; simp [dget_dset_self]
  · rwa [dget_dset_ne d k k0 v hk]

theorem dget_of_mem_nodup (b : Desc) (k : String) (v : Val)
    (hm : (k, v) ∈ b) (hn : (b.map Prod.fst).Nodup) : dget b k = some v := by
  induction b with
  | nil => simp at hm
  | cons p rest ih =>
    obtain ⟨k1, v1⟩ := p
    rw [List.map_cons, List.nodup_cons] at hn
    rcases List.mem_cons.mp hm with heq | hmem
    · injection heq with h1 h2
      subst h1
      subst h2
      simp [dget]
    · have hk1 : k1 ≠ k := by
        intro hcon
        subst hcon
        exact hn.1 (List.mem_map.mpr ⟨(k1, v), hmem, rfl⟩)
      simp [dget, hk1, ih hmem hn.2]

theorem compat1_congr (a a2 : Desc) (k : String) (v : Val)
    (h : dget a k = dget a2 k) : compat1 a k v = compat1 a2 k v := by
  cases v <;> simp [compat1, h]

/-- Under per-key type compatibility and agreement on any shared `sync`
value, `merge_params` succeeds; the merged dict keeps every key of `a`
present and keeps keys unique. -/
theorem merge_params_ok (b : Desc) : ∀ a : Desc,
    (b.map Prod.fst).Nodup → compatB a b = true → syncOkB a b = true →
    ∃ m, merge_params a b = .ok m ∧
      (∀ k0, (dget a k0).isSome → (dget m k0).isSome) ∧
      ((a.map Prod.fst).Nodup → (m.map Prod.fst).Nodup) := by
  induction b with
  | nil =>
    intro a _ _ _
    exact ⟨a, rfl, fun _ h => h, fun h => h⟩
  | cons p rest ih =>
    intro a hn hc hs
    obtain ⟨k, bv⟩ := p
    rw [List.map_cons, List.nodup_cons] at hn
    rw [compatB, List.all_cons, Bool.and_eq_true] at hc
    rw [syncOkB, List.all_cons, Bool.and_eq_true] at hs
    have hguard : (k == "sync" && (match dget a k with
        | some av => !Val.beq av bv
        | none => false)) = false := by
      by_cases hk : k = "sync"
      · subst hk
        have hs1 := hs.1
        cases hd : dget a "sync" with
        | none => simp [hd]
        | some av =>
          simp only [hd] at hs1 ⊢
          simp only [beq_self_eq_true, Bool.not_true, Bool.false_or] at hs1
          simp [hs1]
      · simp [beq_eq_false_iff_ne.mpr hk]
    have hknotin : k ∉ rest.map Prod.fst := hn.1
    have hcompat2 : ∀ v' : Val, compatB (dset a k v') rest = true := by
      intro v'
      rw [compatB, List.all_eq_true]
      intro p hp
      have hkne : p.1 ≠ k := fun hcon =>
        hknotin (hcon ▸ List.mem_map.mpr ⟨p, hp, rfl⟩)
      rw [compat1_congr (dset a k v') a p.1 p.2 (dget_dset_ne a k p.1 v' hkne)]
      exact List.all_eq_true.mp hc.2 p hp
    have hsync2 : ∀ v' : Val, syncOkB (dset a k v') rest = true := by
      intro v'
      rw [syncOkB, List.all_eq_true]
      intro p hp
      by_cases hks : p.1 = "sync"
      · have hksync : k ≠ "sync" := fun hcon =>
          hknotin (by rw [hcon, ← hks]; exact List.mem_map.mpr ⟨p, hp, rfl⟩)
        have := List.all_eq_true.mp hs.2 p hp
        rwa [dget_dset_ne a k "sync" v' (Ne.symm hksync)]
      · simp [beq_eq_false_iff_ne.mpr hks]
    have fin : ∀ v' : Val,
        (∃ m, merge_params (dset a k v') rest = .ok m ∧
          (∀ k0, (dget a k0).isSome → (dget m k0).isSome) ∧
          ((a.map Prod.fst).Nodup → (m.map Prod.fst).Nodup)) := by
      intro v'
      obtain ⟨m, hm, hpres, hnod⟩ := ih (dset a k v') hn.2 (hcompat2 v') (hsync2 v')
      exact ⟨m, hm, fun k0 h => hpres k0 (dget_isSome_dset a k k0 v' h),
        fun h => hnod (nodup_keys_dset a k v' h)⟩
    have hc1 := hc.1
    cases bv with
    | str s =>
      obtain ⟨m, hm, h1, h2⟩ := fin (.str s)
      exact ⟨m, by simp only [merge_params, hguard, Bool.false_eq_true, if_false]; exact hm,
        h1, h2⟩
    | vlist bl =>
      cases hd : dget a k with
      | none =>
        obtain ⟨m, hm, h1, h2⟩ := fin (.vlist (if k = "tasks" then bl else symmDiffV [] bl))
        refine ⟨m, ?_, h1, h2⟩
        simp only [hd] at hguard
        simp only [merge_params, hd, hguard, Bool.false_eq_true, if_false]
        exact hm
      | some av =>
        cases av with
        | vlist prev =>
          obtain ⟨m, hm, h1, h2⟩ :=
            fin (.vlist (prev ++ if k = "tasks" then bl else symmDiffV prev bl))
          refine ⟨m, ?_, h1, h2⟩
          simp only [hd] at hguard
          simp only [merge_params, hd, hguard, Bool.false_eq_true, if_false]
          exact hm
        | str s => simp [compat1, hd] at hc1
        | vdict dd => simp [compat1, hd] at hc1
    | vdict bd =>
      cases hd : dget a k with
      | none =>
        obtain ⟨m, hm, h1, h2⟩ := fin (.vdict bd)
        refine ⟨m, ?_, h1, h2⟩
        simp only [hd] at hguard
        simp only [merge_params, hd, hguard, Bool.false_eq_true, if_false]
        exact hm
      | some av =>
        cases av with
        | vdict ad =>
          obtain ⟨m, hm, h1, h2⟩ := fin (.vdict (dunion ad bd))
          refine ⟨m, ?_, h1, h2⟩
          simp only [hd] at hguard
          simp only [merge_params, hd, hguard, Bool.false_eq_true, if_false]
          exact hm
        | str s => simp [compat1, hd] at hc1
        | vlist ll => simp [compat1, hd] at hc1

/-- When both dicts carry a `sync` key with values that are not Python-equal
(and the other keys are type-compatible), `merge_params` raises the
`'multiple sync fields defined'` assertion. -/
theorem merge_params_conflict (b : Desc) : ∀ (a : Desc) (sa sb : Val),
    (b.map Prod.fst).Nodup → compatB a b = true →
    dget a "sync" = some sa → dget b "sync" = some sb → Val.beq sa sb = false →
    merge_params a b = .error "multiple sync fields defined" := by
  induction b with
  | nil =>
    intro a sa sb _ _ _ hb _
    simp [dget] at hb
  | cons p rest ih =>
    intro a sa sb hn hc ha hb hne
    obtain ⟨k, bv⟩ := p
    rw [List.map_cons, List.nodup_cons] at hn
    rw [compatB, List.all_cons, Bool.and_eq_true] at hc
    by_cases hk : k = "sync"
    · subst hk
      rw [dget, if_pos rfl] at hb
      injection hb with hb
      subst hb
      have hguard : ("sync" == "sync" && (match dget a "sync" with
          | some av => !Val.beq av bv
          | none => false)) = true := by
        simp [ha, hne]
      simp only [merge_params, hguard, if_true]
    · have hbrest : dget rest "sync" = some sb := by
        rw [dget, if_neg hk] at hb
        exact hb
      have hknotin : k ∉ rest.map Prod.fst := hn.1
      have hguard : (k == "sync" && (match dget a k with
          | some av => !Val.beq av bv
          | none => false)) = false := by
        simp [beq_eq_false_iff_ne.mpr hk]
      have hcompat2 : ∀ v' : Val, compatB (dset a k v') rest = true := by
        intro v'
        rw [compatB, List.all_eq_true]
        intro p hp
        have hkne : p.1 ≠ k := fun hcon =>
          hknotin (hcon ▸ List.mem_map.mpr ⟨p, hp, rfl⟩)
        rw [compat1_congr (dset a k v') a p.1 p.2 (dget_dset_ne a k p.1 v' hkne)]
        exact List.all_eq_true.mp hc.2 p hp
      have hfin : ∀ v' : Val,
          merge_params (dset a k v') rest = .error "multiple sync fields defined" := by
        intro v'
        exact ih (dset a k v') sa sb hn.2 (hcompat2 v')
          (by rw [dget_dset_ne a k "sync" v' (Ne.symm hk)]; exact ha) hbrest hne
      have hc1 := hc.1
      cases bv with
      | str s =>
        simp only [merge_params, hguard, Bool.false_eq_true, if_false]
        exact hfin (.str s)
      | vlist bl =>
        cases hd : dget a k with
        | none =>
          simp only [merge_params, hd, Bool.and_false, Bool.false_eq_true, if_false]
          exact hfin (.vlist (if k = "tasks" then bl else symmDiffV [] bl))
        | some av =>
          cases av with
          | vlist prev =>
            simp only [hd] at hguard
            simp only [merge_params, hd, hguard, Bool.false_eq_true, if_false]
            exact hfin (.vlist (prev ++ if k = "tasks" then bl else symmDiffV prev bl))
          | str s => simp [compat1, hd] at hc1
          | vdict dd => simp [compat1, hd] at hc1
      | vdict bd =>
        cases hd : dget a k with
        | none =>
          simp only [merge_params, hd, Bool.and_false, Bool.false_eq_true, if_false]
          exact hfin (.vdict bd)
        | some av =>
          cases av with
          | vdict ad =>
            simp only [hd] at hguard
            simp only [merge_params, hd, hguard, Bool.false_eq_true, if_false]
            exact hfin (.vdict (dunion ad bd))
          | str s => simp [compat1, hd] at hc1
          | vlist ll => simp [compat1, hd] at hc1

/-- C1: merging two descriptors that both carry a `sync` key (with
type-compatible other fields, as any schema-conforming description has)
raises the fatal `'multiple sync fields defined'` configuration error when
the two `sync` values are not identical; when they are identical the merge
succeeds and the result carries exactly one `sync` key. -/
theorem merge_params_sync_exclusive
    (a b : Desc) (sa sb : Val)
    (hna : (a.map Prod.fst).Nodup) (hnb : (b.map Prod.fst).Nodup)
    (hc : compatB a b = true)
    (hsa : dget a "sync" = some sa) (hsb : dget b "sync" = some sb) :
    (Val.beq sa sb = false →
      merge_params a b = .error "multiple sync fields defined") ∧
    (Val.beq sa sb = true →
      ∃ m, merge_params a b = .ok m ∧ countKey m "sync" = 1) := by
  constructor
  · intro h
    exact merge_params_conflict b a sa sb hnb hc hsa hsb h
  · intro h
    have hs : syncOkB a b = true := by
      rw [syncOkB, List.all_eq_true]
      intro p hp
      by_cases hk : p.1 = "sync"
      · have hmem : ("sync", p.2) ∈ b := by
          rw [← hk]
          exact hp
        have := dget_of_mem_nodup b "sync" p.2 hmem hnb
        rw [hsb] at this
        injection this with this
        simp [hsa, ← this, h]
      · simp [beq_eq_false_iff_ne.mpr hk]
    obtain ⟨m, hm, hpres, hnod⟩ := merge_params_ok b a hnb hc hs
    refine ⟨m, hm, ?_⟩
    have h1 : (dget m "sync").isSome := hpres "sync" (by simp [hsa])
    have h2 : (m.map Prod.fst).Nodup := hnod hna
    have h3 : "sync" ∈ m.map Prod.fst := by
      by_contra hcon
      rw [← dget_eq_none_iff] at hcon
      rw [hcon] at h1
      simp at h1
    exact List.count_eq_one_of_mem h2 h3

/-- Witness for `merge_params_sync_exclusive` on concrete descriptors with
identical `sync` entries. -/
theorem merge_params_sync_exclusive_witness :
    (([("sync", Val.vdict [("nidq", Val.str "raw_ephys_data")]),
        ("devices", Val.vdict [])] : Desc).map Prod.fst).Nodup ∧
    (([("sync", Val.vdict [("nidq", Val.str "raw_ephys_data")]),
        ("procedures", Val.vlist [Val.str "p"])] : Desc).map Prod.fst).Nodup ∧
    compatB [("sync", Val.vdict [("nidq", Val.str "raw_ephys_data")]),
        ("devices", Val.vdict [])]
      [("sync", Val.vdict [("nidq", Val.str "raw_ephys_data")]),
        ("procedures", Val.vlist [Val.str "p"])] = true ∧
    Val.beq (Val.vdict [("nidq", Val.str "raw_ephys_data")])
      (Val.vdict [("nidq", Val.str "raw_ephys_data")]) = true ∧
    (∃ m, merge_params [("sync", Val.vdict [("nidq", Val.str "raw_ephys_data")]),
          ("devices", Val.vdict [])]
        [("sync", Val.vdict [("nidq", Val.str "raw_ephys_data")]),
          ("procedures", Val.vlist [Val.str "p"])] = .ok m ∧
      countKey m "sync" = 1) :=
  ⟨by decide, by decide, by decide, by decide,
    (merge_params_sync_exclusive
      [("sync", Val.vdict [("nidq", Val.str "raw_ephys_data")]),
        ("devices", Val.vdict [])]
      [("sync", Val.vdict [("nidq", Val.str "raw_ephys_data")]),
        ("procedures", Val.vlist [Val.str "p"])]
      (Val.vdict [("nidq", Val.str "raw_ephys_data")])
      (Val.vdict [("nidq", Val.str "raw_ephys_data")])
      (by decide) (by decide) (by decide) rfl rfl).2 (by decide)⟩

/-! ## Pipeline construction keeps parent edges pointing backwards -/

theorem wf_snoc (b : List PTask) (n : String) (ps : List Nat)
    (hwf : WFGraph b) (hp : ∀ p ∈ ps, p < b.length) :
    WFGraph (b ++ [PTask.mk n ps]) := by
  intro i h p hp2
  rw [List.length_append] at h
  by_cases hi : i < b.length
  · rw [List.getElem_append_left hi] at hp2
    exact hwf i hi p hp2
  · have hieq : i = b.length := by
      simp only [List.length_singleton] at h
      omega
    subst hieq
    rw [List.getElem_concat_length b _ _ rfl (by simp only [List.length_append, List.length_singleton]; omega)] at hp2
    exact hp p hp2

theorem buildSync_spec (b : List PTask) (sync syncColl : String)
    (syncNs : Option String) (hwf : WFGraph b) :
    WFGraph (buildSync b sync syncColl syncNs).1 ∧
    b.length ≤ (buildSync b sync syncColl syncNs).1.length ∧
    (∀ p ∈ (buildSync b sync syncColl syncNs).2,
      p < (buildSync b sync syncColl syncNs).1.length) := by
  unfold buildSync
  split
  · refine ⟨?_, by simp [addT], ?_⟩
    · apply wf_snoc
      · exact wf_snoc b _ _ hwf (by simp)
      · intro p hp
        simp only [addT, List.mem_singleton] at hp
        simp [addT, hp]
    · intro p hp
      simp only [addT, List.mem_singleton] at hp
      simp [addT, hp]
  · split
    · refine ⟨wf_snoc b _ _ hwf (by simp), by simp [addT], by simp [addT]⟩
    · split
      · refine ⟨?_, by simp [addT], ?_⟩
        · apply wf_snoc
          · exact wf_snoc b _ _ hwf (by simp)
          · intro p hp
            simp only [addT, List.mem_singleton] at hp
            simp [addT, hp]
        · intro p hp
          simp only [addT, List.mem_singleton] at hp
          simp [addT, hp]
      · split
        · refine ⟨wf_snoc b _ _ hwf (by simp), by simp [addT], by simp [addT]⟩
        · exact ⟨hwf, le_refl _, by simp⟩

theorem buildAudio_spec (b : List PTask) (sync : String) (hwf : WFGraph b) :
    WFGraph (buildAudio b sync) ∧ b.length ≤ (buildAudio b sync).length := by
  unfold buildAudio
  split
  · exact ⟨wf_snoc b _ _ hwf (by simp), by simp [addT]⟩
  · split
    · exact ⟨wf_snoc b _ _ hwf (by simp), by simp [addT]⟩
    · exact ⟨hwf, le_refl _⟩

theorem buildWidefield_spec (b : List PTask) (syncTasks : List Nat)
    (hwf : WFGraph b) (hs : ∀ p ∈ syncTasks, p < b.length) :
    WFGraph (buildWidefield b syncTasks) ∧
    b.length ≤ (buildWidefield b syncTasks).length := by
  unfold buildWidefield
  simp only [addT]
  constructor
  · apply wf_snoc
    · apply wf_snoc
      · apply wf_snoc
        · apply wf_snoc
          · exact wf_snoc b _ _ hwf (by simp)
          · intro p hp
            simp only [List.mem_singleton] at hp
            simp [hp]
        · intro p hp
          simp only [List.mem_singleton] at hp
          simp [hp]
      · intro p hp
        simp only [List.mem_append, List.mem_cons, List.not_mem_nil, or_false,
          List.mem_singleton] at hp
        simp only [List.length_append, List.length_singleton] at hp ⊢
        rcases hp with (h1 | h1) | h1
        · omega
        · omega
        · have := hs p h1
          omega
    · intro p hp
      simp only [List.mem_singleton] at hp
      subst hp
      simp only [List.length_append, List.length_singleton]
      omega
  · simp

theorem buildMesoscope_spec (b : List PTask) (hwf : WFGraph b) :
    WFGraph (buildMesoscope b) ∧ b.length ≤ (buildMesoscope b).length := by
  unfold buildMesoscope
  simp only [addT]
  constructor
  · apply wf_snoc
    apply wf_snoc
    apply wf_snoc
    apply wf_snoc
    apply wf_snoc b _ _ hwf (by simp)
    · simp
    · intro p hp
      simp only [List.mem_singleton] at hp
      simp [hp]
    · simp
    · intro p hp
      simp only [List.mem_singleton] at hp
      simp [hp]
  · simp

theorem buildPhotometry_spec (b : List PTask) (syncTasks : List Nat)
    (hwf : WFGraph b) (hs : ∀ p ∈ syncTasks, p < b.length) :
    WFGraph (buildPhotometry b syncTasks) ∧
    b.length ≤ (buildPhotometry b syncTasks).length := by
  unfold buildPhotometry
  simp only [addT]
  constructor
  · apply wf_snoc
    · exact wf_snoc b _ _ hwf (by simp)
    · intro p hp
      simp only [List.mem_append, List.mem_singleton] at hp
      simp only [List.length_append, List.length_singleton]
      rcases hp with h1 | h1
      · omega
      · have := hs p h1
        omega
  · simp


theorem buildLegacy_spec (b : List PTask) (sync : String) (syncTasks : List Nat)
    (i : Nat) (protocol : String) (b' : List PTask)
    (h : buildLegacy b sync syncTasks i protocol = .ok b')
    (hwf : WFGraph b) (hs : ∀ p ∈ syncTasks, p < b.length) :
    WFGraph b' ∧ b.length ≤ b'.length := by
  have hpair : ∀ n1 n2 : String,
      WFGraph (b ++ [⟨n1, []⟩] ++ [⟨n2, [b.length] ++ syncTasks⟩]) := by
    intro n1 n2
    apply wf_snoc
    · exact wf_snoc b _ _ hwf (by simp)
    · intro p hp
      simp only [List.mem_append, List.mem_singleton] at hp
      simp only [List.length_append, List.length_singleton]
      rcases hp with h1 | h1
      · omega
      · have := hs p h1
        omega
  have htriple : ∀ n1 n2 n3 : String,
      WFGraph (b ++ [⟨n1, []⟩] ++ [⟨n2, [b.length] ++ syncTasks⟩]
        ++ [⟨n3, [(b ++ [(⟨n1, []⟩ : PTask)]).length]⟩]) := by
    intro n1 n2 n3
    apply wf_snoc
    · exact hpair n1 n2
    · intro p hp
      simp only [List.mem_singleton] at hp
      simp only [List.length_append, List.length_singleton] at hp ⊢
      omega
  rcases hsel : selLegacy sync protocol with e | cs
  · rw [buildLegacy, hsel] at h
    exact absurd h (by simp)
  · rw [buildLegacy, hsel] at h
    simp only [addT] at h
    cases cs
    · rw [if_neg (by simp)] at h
      injection h with h
      subst h
      exact ⟨hpair _ _, by simp⟩
    · rw [if_pos rfl] at h
      injection h with h
      subst h
      exact ⟨htriple _ _ _, by simp⟩

theorem buildChain_spec (reg : Registry) (sync : String) (syncTasks : List Nat)
    (i : Nat) (exs : List String) :
    ∀ (b : List PTask) (j : Nat) (prev : Option Nat) (b' : List PTask),
      buildChain reg sync syncTasks i b exs j prev = .ok b' →
      WFGraph b →
      (∀ p ∈ syncTasks, p < b.length) →
      (∀ p, prev = some p → p < b.length) →
      WFGraph b' ∧ b.length ≤ b'.length := by
  induction exs with
  | nil =>
    intro b j prev b' h hwf _ _
    simp only [buildChain] at h
    injection h with h
    subst h
    exact ⟨hwf, le_refl _⟩
  | cons ex rest ih =>
    intro b j prev b' h hwf hs hprev
    simp only [buildChain] at h
    rcases hcc : collisionCheck sync ex with e | u <;> rw [hcc] at h
    · exact absurd h (by simp)
    rcases hre : resolveExtractor reg sync ex with e | nm <;> rw [hre] at h
    · exact absurd h (by simp)
    simp only [addT] at h
    have hprevL : ∀ p ∈ prevList prev, p < b.length := by
      intro p hp
      cases prev with
      | none => simp [prevList] at hp
      | some q =>
        simp only [prevList, List.mem_singleton] at hp
        exact hp ▸ hprev q rfl
    have hpar : ∀ p ∈ (if j = 1 then prevList prev ++ syncTasks else prevList prev),
        p < b.length := by
      intro p hp
      by_cases hj : j = 1
      · rw [if_pos hj] at hp
        rcases List.mem_append.mp hp with h1 | h1
        · exact hprevL p h1
        · exact hs p h1
      · rw [if_neg hj] at hp
        exact hprevL p hp
    have hwf2 : WFGraph (b ++ [⟨nm ++ "_" ++ pad2 i,
        if j = 1 then prevList prev ++ syncTasks else prevList prev⟩]) :=
      wf_snoc b _ _ hwf hpar
    obtain ⟨hwf', hle⟩ := ih _ (j + 1) (some b.length) b' h hwf2
      (fun p hp => lt_of_lt_of_le (hs p hp) (by simp))
      (fun p hp => by
        injection hp with hp
        subst hp
        simp)
    exact ⟨hwf', le_trans (by simp) hle⟩

theorem buildBehavior_spec (reg : Registry) (sync : String) (syncTasks : List Nat)
    (tes : List TaskEntry) :
    ∀ (b : List PTask) (i : Nat) (b' : List PTask),
      buildBehavior reg sync syncTasks b tes i = .ok b' →
      WFGraph b → (∀ p ∈ syncTasks, p < b.length) →
      WFGraph b' ∧ b.length ≤ b'.length := by
  induction tes with
  | nil =>
    intro b i b' h hwf _
    simp only [buildBehavior] at h
    injection h with h
    subst h
    exact ⟨hwf, le_refl _⟩
  | cons te rest ih =>
    intro b i b' h hwf hs
    simp only [buildBehavior] at h
    rcases hstep : (if te.extractors.isEmpty then buildLegacy b sync syncTasks i te.protocol
        else buildChain reg sync syncTasks i b te.extractors 0 none) with e | b2 <;>
      rw [hstep] at h
    · exact absurd h (by simp)
    have hb2 : WFGraph b2 ∧ b.length ≤ b2.length := by
      by_cases he : te.extractors.isEmpty
      · rw [if_pos he] at hstep
        exact buildLegacy_spec b sync syncTasks i te.protocol b2 hstep hwf hs
      · rw [if_neg he] at hstep
        exact buildChain_spec reg sync syncTasks i te.extractors b 0 none b2 hstep hwf hs
          (fun p hp => absurd hp (by simp))
    obtain ⟨hwf2, hle2⟩ := hb2
    obtain ⟨hwf', hle⟩ := ih b2 (i + 1) b' h hwf2
      (fun p hp => lt_of_lt_of_le (hs p hp) hle2)
    exact ⟨hwf', le_trans hle2 hle⟩

theorem buildProbeCompress_spec (b : List PTask) (p : ProbeEntry) (hwf : WFGraph b) :
    WFGraph (buildProbeCompress b p).1 ∧
    b.length ≤ (buildProbeCompress b p).1.length ∧
    (buildProbeCompress b p).2.2.2 < (buildProbeCompress b p).1.length := by
  unfold buildProbeCompress
  split
  · exact ⟨wf_snoc b _ _ hwf (by simp), by simp [addT], by simp [addT]⟩
  · split
    · exact ⟨wf_snoc b _ _ hwf (by simp), by simp [addT], by simp [addT]⟩
    · exact ⟨wf_snoc b _ _ hwf (by simp), by simp [addT], by simp [addT]⟩

theorem buildProbesLoop_spec (probes : List ProbeEntry) :
    ∀ (b : List PTask) (aps : List String) (regs : List (String × Nat))
      (npt : Option String),
      WFGraph b → (∀ r ∈ regs, r.2 < b.length) →
      WFGraph (buildProbesLoop b probes aps regs npt).1 ∧
      b.length ≤ (buildProbesLoop b probes aps regs npt).1.length ∧
      (∀ r ∈ (buildProbesLoop b probes aps regs npt).2.2.1,
        r.2 < (buildProbesLoop b probes aps regs npt).1.length) := by
  induction probes with
  | nil =>
    intro b aps regs npt hwf hr
    exact ⟨hwf, le_refl _, hr⟩
  | cons p rest ih =>
    intro b aps regs npt hwf hr
    simp only [buildProbesLoop]
    obtain ⟨hwf2, hle2, hidx⟩ := buildProbeCompress_spec b p hwf
    have hr2 : ∀ r ∈ regs ++ [(buildProbeCompress b p).2.2],
        r.2 < (buildProbeCompress b p).1.length := by
      intro r hrr
      rcases List.mem_append.mp hrr with h1 | h1
      · exact lt_of_lt_of_le (hr r h1) hle2
      · rw [List.mem_singleton] at h1
        exact h1 ▸ hidx
    obtain ⟨hwfL, hleL, hrL⟩ := ih (buildProbeCompress b p).1 (aps ++ (buildProbeCompress b p).2.1)
      (regs ++ [(buildProbeCompress b p).2.2]) (some p.nptype) hwf2 hr2
    exact ⟨hwfL, le_trans hle2 hleL, hrL⟩

theorem buildProbeTasks_spec (b : List PTask) (syncTasks : List Nat)
    (regs : List (String × Nat)) (iEP3A : Option Nat) (pname : String)
    (hwf : WFGraph b) (hs : ∀ p ∈ syncTasks, p < b.length)
    (hr : ∀ r ∈ regs, r.2 < b.length)
    (hEP : ∀ q, iEP3A = some q → q < b.length) :
    WFGraph (buildProbeTasks b syncTasks regs iEP3A pname) ∧
    b.length ≤ (buildProbeTasks b syncTasks regs iEP3A pname).length := by
  have hreg : ∀ p ∈ (regs.filter
      (fun rt => chSub (pname.toList.take 7) rt.1.toList)).map Prod.snd,
      p < b.length := by
    intro p hp
    obtain ⟨r, hrm, hre⟩ := List.mem_map.mp hp
    exact hre ▸ hr r (List.mem_of_mem_filter hrm)
  unfold buildProbeTasks
  cases iEP3A with
  | none =>
    simp only [addT]
    constructor
    · apply wf_snoc
      · apply wf_snoc
        · apply wf_snoc
          · apply wf_snoc b _ _ hwf
            intro p hp
            rcases List.mem_append.mp hp with h1 | h1
            · exact hreg p h1
            · exact hs p h1
          · intro p hp
            simp only [List.mem_singleton] at hp
            simp [hp]
        · intro p hp
          have := hreg p hp
          simp only [List.length_append, List.length_singleton]
          omega
      · intro p hp
        simp only [List.mem_singleton] at hp
        simp only [List.length_append, List.length_singleton] at hp ⊢
        omega
    · simp
  | some iEP =>
    simp only [addT]
    constructor
    · apply wf_snoc
      · apply wf_snoc
        · apply wf_snoc b _ _ hwf
          intro p hp
          simp only [List.mem_singleton] at hp
          exact hp ▸ hEP iEP rfl
        · intro p hp
          have := hreg p hp
          simp only [List.length_append, List.length_singleton]
          omega
      · intro p hp
        simp only [List.mem_singleton] at hp
        simp only [List.length_append, List.length_singleton] at hp ⊢
        omega
    · simp

theorem foldl_probeTasks_spec (syncTasks : List Nat) (regs : List (String × Nat))
    (iEP3A : Option Nat) (aps : List String) :
    ∀ b : List PTask, WFGraph b → (∀ p ∈ syncTasks, p < b.length) →
      (∀ r ∈ regs, r.2 < b.length) → (∀ q, iEP3A = some q → q < b.length) →
      WFGraph (aps.foldl (fun b pname => buildProbeTasks b syncTasks regs iEP3A pname) b) ∧
      b.length ≤ (aps.foldl (fun b pname => buildProbeTasks b syncTasks regs iEP3A pname) b).length := by
  induction aps with
  | nil => intro b hwf _ _ _; exact ⟨hwf, le_refl _⟩
  | cons pn rest ih =>
    intro b hwf hs hr hEP
    simp only [List.foldl_cons]
    obtain ⟨hwf2, hle2⟩ := buildProbeTasks_spec b syncTasks regs iEP3A pn hwf hs hr hEP
    obtain ⟨hwf', hle'⟩ := ih _ hwf2
      (fun p hp => lt_of_lt_of_le (hs p hp) hle2)
      (fun r hrr => lt_of_lt_of_le (hr r hrr) hle2)
      (fun q hq => lt_of_lt_of_le (hEP q hq) hle2)
    exact ⟨hwf', le_trans hle2 hle'⟩

theorem buildEphys_spec (b : List PTask) (probes : List ProbeEntry)
    (syncTasks : List Nat) (b' : List PTask)
    (h : buildEphys b probes syncTasks = .ok b')
    (hwf : WFGraph b) (hs : ∀ p ∈ syncTasks, p < b.length) :
    WFGraph b' ∧ b.length ≤ b'.length := by
  have hwf1 : WFGraph (addT b "EphysRegisterRaw" []).1 :=
    wf_snoc b _ _ hwf (by simp)
  have hle1 : b.length ≤ (addT b "EphysRegisterRaw" []).1.length := by simp [addT]
  obtain ⟨hwfL, hleL, hrL⟩ := buildProbesLoop_spec probes (addT b "EphysRegisterRaw" []).1
    [] [] none hwf1 (by simp)
  have hsL : ∀ p ∈ syncTasks,
      p < (buildProbesLoop (addT b "EphysRegisterRaw" []).1 probes [] [] none).1.length :=
    fun p hp => lt_of_lt_of_le (lt_of_lt_of_le (hs p hp) hle1) hleL
  rw [buildEphys] at h
  simp only [] at h
  split at h
  case h_1 => exact absurd h (by simp)
  case h_2 npt hnp =>
    by_cases h3a : npt = "3A"
    · rw [if_pos h3a] at h
      injection h with h
      subst h
      have hwfEP : WFGraph (addT
          (buildProbesLoop (addT b "EphysRegisterRaw" []).1 probes [] [] none).1 "EphysPulses"
          ((buildProbesLoop (addT b "EphysRegisterRaw" []).1 probes [] [] none).2.2.1.map Prod.snd
            ++ syncTasks)).1 := by
        apply wf_snoc
        · exact hwfL
        · intro p hp
          rcases List.mem_append.mp hp with h1 | h1
          · obtain ⟨r, hrm, hre⟩ := List.mem_map.mp h1
            exact hre ▸ hrL r hrm
          · exact hsL p h1
      obtain ⟨hwf2, hle2⟩ := foldl_probeTasks_spec syncTasks
        (buildProbesLoop (addT b "EphysRegisterRaw" []).1 probes [] [] none).2.2.1
        (some (addT
          (buildProbesLoop (addT b "EphysRegisterRaw" []).1 probes [] [] none).1 "EphysPulses"
          ((buildProbesLoop (addT b "EphysRegisterRaw" []).1 probes [] [] none).2.2.1.map Prod.snd
            ++ syncTasks)).2)
        (buildProbesLoop (addT b "EphysRegisterRaw" []).1 probes [] [] none).2.1
        (addT
          (buildProbesLoop (addT b "EphysRegisterRaw" []).1 probes [] [] none).1 "EphysPulses"
          ((buildProbesLoop (addT b "EphysRegisterRaw" []).1 probes [] [] none).2.2.1.map Prod.snd
            ++ syncTasks)).1
        hwfEP
        (fun p hp => lt_of_lt_of_le (hsL p hp) (by simp [addT]))
        (fun r hrr => lt_of_lt_of_le (hrL r hrr) (by simp [addT]))
        (fun q hq => by
          injection hq with hq
          subst hq
          simp [addT])
      refine ⟨hwf2, ?_⟩
      calc b.length ≤ (addT b "EphysRegisterRaw" []).1.length := hle1
        _ ≤ _ := le_trans hleL (le_trans (by simp [addT]) hle2)
    · rw [if_neg h3a] at h
      injection h with h
      subst h
      obtain ⟨hwf2, hle2⟩ := foldl_probeTasks_spec syncTasks
        (buildProbesLoop (addT b "EphysRegisterRaw" []).1 probes [] [] none).2.2.1
        none
        (buildProbesLoop (addT b "EphysRegisterRaw" []).1 probes [] [] none).2.1
        (buildProbesLoop (addT b "EphysRegisterRaw" []).1 probes [] [] none).1
        hwfL hsL hrL
        (fun q hq => by cases hq)
      exact ⟨hwf2, le_trans hle1 (le_trans hleL hle2)⟩

theorem buildVideoPre_spec (b : List PTask) (cams : CamerasEntry) (sync : String)
    (syncTasks : List Nat)
    (hwf : WFGraph b) (hs : ∀ p ∈ syncTasks, p < b.length) :
    WFGraph (buildVideoPre b cams sync syncTasks).1 ∧
    b.length ≤ (buildVideoPre b cams sync syncTasks).1.length ∧
    (buildVideoPre b cams sync syncTasks).2.1 < (buildVideoPre b cams sync syncTasks).1.length ∧
    (∀ q, (buildVideoPre b cams sync syncTasks).2.2 = some q →
      q < (buildVideoPre b cams sync syncTasks).1.length) := by
  unfold buildVideoPre
  split
  · refine ⟨?_, by simp [addT], by simp [addT], ?_⟩
    · exact wf_snoc _ _ _ (wf_snoc b _ _ hwf (by simp)) (by simp)
    · intro q hq
      simp only [addT] at hq ⊢
      injection hq with hq
      subst hq
      simp
  · split
    · refine ⟨?_, by simp [addT], by simp [addT], ?_⟩
      · apply wf_snoc
        · exact wf_snoc _ _ _ (wf_snoc b _ _ hwf (by simp)) (by simp)
        · intro p hp
          simp only [addT, List.mem_singleton] at hp
          simp only [addT, List.length_append, List.length_singleton] at hp ⊢
          omega
      · intro q hq
        simp only [addT] at hq ⊢
        injection hq with hq
        subst hq
        simp
    · split
      · refine ⟨?_, by simp [addT], by simp [addT], ?_⟩
        · apply wf_snoc
          · exact wf_snoc _ _ _ (wf_snoc b _ _ hwf (by simp)) (by simp)
          · intro p hp
            simp only [addT] at hp ⊢
            rcases List.mem_append.mp hp with h1 | h1
            · simp only [List.mem_singleton] at h1
              simp only [List.length_append, List.length_singleton] at h1 ⊢
              omega
            · have := hs p h1
              simp only [List.length_append, List.length_singleton]
              omega
        · intro q hq
          simp only [addT] at hq ⊢
          injection hq with hq
          subst hq
          simp
      · refine ⟨?_, by simp [addT], by simp [addT], ?_⟩
        · exact wf_snoc _ _ _ (wf_snoc b _ _ hwf (by simp)) (by simp)
        · intro q hq
          cases hq

theorem buildVideo_spec (b : List PTask) (cams : CamerasEntry) (sync : String)
    (syncTasks : List Nat) (b' : List PTask)
    (h : buildVideo b cams sync syncTasks = .ok b')
    (hwf : WFGraph b) (hs : ∀ p ∈ syncTasks, p < b.length) :
    WFGraph b' ∧ b.length ≤ b'.length := by
  obtain ⟨hwfP, hleP, hdlc, hvsq⟩ := buildVideoPre_spec b cams sync syncTasks hwf hs
  rw [buildVideo] at h
  simp only [] at h
  by_cases hb : sync = "bpod"
  · rw [if_pos hb] at h
    injection h with h
    subst h
    exact ⟨hwfP, hleP⟩
  · rw [if_neg hb] at h
    revert h
    split
    · rename_i iv hiv
      intro h
      injection h with h
      subst h
      constructor
      · apply wf_snoc
        · apply wf_snoc
          · exact hwfP
          · intro p hp
            simp only [List.mem_singleton] at hp
            exact hp ▸ hdlc
        · intro p hp
          simp only [addT] at hp
          simp only [List.mem_cons, List.mem_singleton, List.not_mem_nil, or_false] at hp
          simp only [addT, List.length_append, List.length_singleton]
          rcases hp with h1 | h1
          · omega
          · have := hvsq p (h1 ▸ hiv)
            omega
      · simp only [addT, List.length_append, List.length_singleton]
        omega
    · intro h
      exact absurd h (by simp)

theorem WFGraph_nil : WFGraph [] := by
  intro i h
  simp at h

theorem make_pipeline_wf (reg : Registry) (d : AcqDesc) (ts : List PTask)
    (h : make_pipeline reg d = .ok ts) : WFGraph ts := by
  rw [make_pipeline] at h
  simp only [] at h
  split at h
  case h_2 => exact absurd h (by simp)
  case h_1 se hse =>
    split at h
    case h_1 => exact absurd h (by simp)
    case h_2 syncColl hcoll =>
      have hwf0 : WFGraph (addT ([] : List PTask) "ExperimentDescriptionRegisterRaw" []).1 :=
        wf_snoc [] _ _ WFGraph_nil (by simp)
      obtain ⟨hwfS, hleS, hsyncS⟩ := buildSync_spec
        (addT ([] : List PTask) "ExperimentDescriptionRegisterRaw" []).1
        se.label syncColl se.acquisition_software hwf0
      split at h
      case h_1 => exact absurd h (by simp)
      case h_2 b2 hb2 =>
        obtain ⟨hwf2, hle2⟩ := buildBehavior_spec reg se.label _ d.taskList _ 0 b2 hb2 hwfS hsyncS
        have hsync2 : ∀ p ∈ (buildSync
            (addT ([] : List PTask) "ExperimentDescriptionRegisterRaw" []).1
            se.label syncColl se.acquisition_software).2, p < b2.length :=
          fun p hp => lt_of_lt_of_le (hsyncS p hp) hle2
        split at h
        case h_1 => exact absurd h (by simp)
        case h_2 b3 hb3 =>
          have hb3spec : WFGraph b3 ∧ b2.length ≤ b3.length := by
            revert hb3
            split
            · intro hb3
              exact buildEphys_spec b2 _ _ b3 hb3 hwf2 hsync2
            · intro hb3
              injection hb3 with hb3
              subst hb3
              exact ⟨hwf2, le_refl _⟩
          obtain ⟨hwf3, hle3⟩ := hb3spec
          have hsync3 : ∀ p ∈ (buildSync
              (addT ([] : List PTask) "ExperimentDescriptionRegisterRaw" []).1
              se.label syncColl se.acquisition_software).2, p < b3.length :=
            fun p hp => lt_of_lt_of_le (hsync2 p hp) hle3
          split at h
          case h_1 => exact absurd h (by simp)
          case h_2 b4 hb4 =>
            have hb4spec : WFGraph b4 ∧ b3.length ≤ b4.length := by
              revert hb4
              split
              · intro hb4
                exact buildVideo_spec b3 _ se.label _ b4 hb4 hwf3 hsync3
              · intro hb4
                injection hb4 with hb4
                subst hb4
                exact ⟨hwf3, le_refl _⟩
            obtain ⟨hwf4, hle4⟩ := hb4spec
            have hsync4 : ∀ p ∈ (buildSync
                (addT ([] : List PTask) "ExperimentDescriptionRegisterRaw" []).1
                se.label syncColl se.acquisition_software).2, p < b4.length :=
              fun p hp => lt_of_lt_of_le (hsync3 p hp) hle4
            injection h with h
            subst h
            -- the remaining four device blocks are pure
            set ST := (buildSync (addT ([] : List PTask) "ExperimentDescriptionRegisterRaw" []).1
                se.label syncColl se.acquisition_software).2 with hST
            set b5 := if d.microphone then buildAudio b4 se.label else b4 with hb5
            have h5 : WFGraph b5 ∧ b4.length ≤ b5.length := by
              rw [hb5]
              split
              · exact buildAudio_spec b4 se.label hwf4
              · exact ⟨hwf4, le_refl _⟩
            obtain ⟨hwf5, hle5⟩ := h5
            have hsync5 : ∀ p ∈ ST, p < b5.length :=
              fun p hp => lt_of_lt_of_le (hsync4 p hp) hle5
            set b6 := if d.widefield then buildWidefield b5 ST else b5 with hb6
            have h6 : WFGraph b6 ∧ b5.length ≤ b6.length := by
              rw [hb6]
              split
              · exact buildWidefield_spec b5 ST hwf5 hsync5
              · exact ⟨hwf5, le_refl _⟩
            obtain ⟨hwf6, hle6⟩ := h6
            have hsync6 : ∀ p ∈ ST, p < b6.length :=
              fun p hp => lt_of_lt_of_le (hsync5 p hp) hle6
            set b7 := if d.mesoscope then buildMesoscope b6 else b6 with hb7
            have h7 : WFGraph b7 ∧ b6.length ≤ b7.length := by
              rw [hb7]
              split
              · exact buildMesoscope_spec b6 hwf6
              · exact ⟨hwf6, le_refl _⟩
            obtain ⟨hwf7, hle7⟩ := h7
            have hsync7 : ∀ p ∈ ST, p < b7.length :=
              fun p hp => lt_of_lt_of_le (hsync6 p hp) hle7
            split
            · exact (buildPhotometry_spec b7 ST hwf7 hsync7).1
            · exact hwf7

theorem foldl_max_acc_le (l : List Nat) : ∀ a : Nat, a ≤ l.foldl Nat.max a := by
  induction l with
  | nil => intro a; simp
  | cons y ys ih =>
    intro a
    simp only [List.foldl_cons]
    exact le_trans (Nat.le_max_left a y) (ih (Nat.max a y))

theorem le_foldl_max (l : List Nat) : ∀ (a x : Nat), x ∈ l → x ≤ l.foldl Nat.max a := by
  induction l with
  | nil =>
    intro a x hx
    simp at hx
  | cons y ys ih =>
    intro a x hx
    simp only [List.foldl_cons]
    rcases List.mem_cons.mp hx with h1 | h1
    · subst h1
      exact le_trans (Nat.le_max_right a x) (foldl_max_acc_le ys (Nat.max a x))
    · exact ih (Nat.max a y) x h1

theorem levelOf_parent_lt (ts : List PTask) (hwf : WFGraph ts) :
    ∀ i, (h : i < ts.length) → ∀ p ∈ ts[i].parents, levelOf ts p < levelOf ts i := by
  intro i h p hp
  have hpi : p < i := hwf i h p hp
  have hne : ts[i].parents.isEmpty = false := by
    rcases hcon : ts[i].parents with _ | ⟨x, xs⟩
    · rw [hcon] at hp
      simp at hp
    · simp
  have hlev : levelOf ts i = (((ts[i].parents.filter (· < i)).attach.map
      (fun q => levelOf ts q.1)).foldl Nat.max 0) + 1 := by
    rw [levelOf]
    rw [List.getElem?_eq_getElem h]
    simp only [hne, Bool.false_eq_true, if_false]
  rw [hlev]
  have hpf : p ∈ ts[i].parents.filter (· < i) :=
    List.mem_filter.mpr ⟨hp, by simpa using hpi⟩
  have hmem2 : levelOf ts p ∈ (ts[i].parents.filter (· < i)).attach.map
      (fun q => levelOf ts q.1) :=
    List.mem_map.mpr ⟨⟨p, hpf⟩, List.mem_attach _ _, rfl⟩
  exact Nat.lt_succ_of_le (le_foldl_max _ 0 _ hmem2)

/-- C4: every pipeline successfully produced by `make_pipeline` is acyclic —
every parent edge points from a later-created task back to an
earlier-created one — and, with the level assignment of spec §4.3 step 7
(`level = 1 + max(level of parents)`, `0` with no parents; the computation
lives in `ibllib.pipes.tasks`, outside these sources), every node's level
strictly exceeds each of its parents' levels. -/
theorem make_pipeline_acyclic_levels (reg : Registry) (d : AcqDesc) (ts : List PTask)
    (h : make_pipeline reg d = .ok ts) :
    WFGraph ts ∧
    (∀ i, (hi : i < ts.length) → ∀ p ∈ ts[i].parents, levelOf ts p < levelOf ts i) := by
  have hwf := make_pipeline_wf reg d ts h
  exact ⟨hwf, levelOf_parent_lt ts hwf⟩

/-- Witness for `make_pipeline_acyclic_levels` on a concrete training-style
descriptor (bpod sync, one legacy protocol, one camera, a microphone). -/
theorem make_pipeline_acyclic_levels_witness :
    make_pipeline ⟨[], []⟩
      ⟨[⟨"bpod", some "raw_behavior_data", none, none⟩],
        [⟨"trainingChoiceWorld", []⟩], none, some ⟨["left"], false⟩,
        true, false, false, false⟩
      = .ok [⟨"ExperimentDescriptionRegisterRaw", []⟩,
             ⟨"RegisterRaw_trainingChoiceWorld_00", []⟩,
             ⟨"Trials_trainingChoiceWorld_00", [1]⟩,
             ⟨"TrainingStatus_trainingChoiceWorld_00", [2]⟩,
             ⟨"VideoRegisterRaw", []⟩,
             ⟨"VideoCompress", []⟩,
             ⟨"VideoSyncQC_bpod", [5]⟩,
             ⟨"AudioRegisterRaw", []⟩] ∧
    (WFGraph [⟨"ExperimentDescriptionRegisterRaw", []⟩,
             ⟨"RegisterRaw_trainingChoiceWorld_00", []⟩,
             ⟨"Trials_trainingChoiceWorld_00", [1]⟩,
             ⟨"TrainingStatus_trainingChoiceWorld_00", [2]⟩,
             ⟨"VideoRegisterRaw", []⟩,
             ⟨"VideoCompress", []⟩,
             ⟨"VideoSyncQC_bpod", [5]⟩,
             ⟨"AudioRegisterRaw", []⟩] ∧
      (∀ i, (hi : i < ([⟨"ExperimentDescriptionRegisterRaw", []⟩,
             ⟨"RegisterRaw_trainingChoiceWorld_00", []⟩,
             ⟨"Trials_trainingChoiceWorld_00", [1]⟩,
             ⟨"TrainingStatus_trainingChoiceWorld_00", [2]⟩,
             ⟨"VideoRegisterRaw", []⟩,
             ⟨"VideoCompress", []⟩,
             ⟨"VideoSyncQC_bpod", [5]⟩,
             ⟨"AudioRegisterRaw", []⟩] : List PTask).length) →
        ∀ p ∈ ([⟨"ExperimentDescriptionRegisterRaw", []⟩,
             ⟨"RegisterRaw_trainingChoiceWorld_00", []⟩,
             ⟨"Trials_trainingChoiceWorld_00", [1]⟩,
             ⟨"TrainingStatus_trainingChoiceWorld_00", [2]⟩,
             ⟨"VideoRegisterRaw", []⟩,
             ⟨"VideoCompress", []⟩,
             ⟨"VideoSyncQC_bpod", [5]⟩,
             ⟨"AudioRegisterRaw", []⟩] : List PTask)[i].parents,
          levelOf [⟨"ExperimentDescriptionRegisterRaw", []⟩,
             ⟨"RegisterRaw_trainingChoiceWorld_00", []⟩,
             ⟨"Trials_trainingChoiceWorld_00", [1]⟩,
             ⟨"TrainingStatus_trainingChoiceWorld_00", [2]⟩,
             ⟨"VideoRegisterRaw", []⟩,
             ⟨"VideoCompress", []⟩,
             ⟨"VideoSyncQC_bpod", [5]⟩,
             ⟨"AudioRegisterRaw", []⟩] p <
          levelOf [⟨"ExperimentDescriptionRegisterRaw", []⟩,
             ⟨"RegisterRaw_trainingChoiceWorld_00", []⟩,
             ⟨"Trials_trainingChoiceWorld_00", [1]⟩,
             ⟨"TrainingStatus_trainingChoiceWorld_00", [2]⟩,
             ⟨"VideoRegisterRaw", []⟩,
             ⟨"VideoCompress", []⟩,
             ⟨"VideoSyncQC_bpod", [5]⟩,
             ⟨"AudioRegisterRaw", []⟩] i)) :=
  ⟨by rfl, make_pipeline_acyclic_levels ⟨[], []⟩
    ⟨[⟨"bpod", some "raw_behavior_data", none, none⟩],
      [⟨"trainingChoiceWorld", []⟩], none, some ⟨["left"], false⟩,
      true, false, false, false⟩ _ (by rfl)⟩

/-- C8: the length checks of `Widefield.sync_timestamps`: with the video
frame count within tolerance, a led/DAQ pulse-count mismatch (the code's
tolerance is zero) raises before any fit is attempted and no mapping is
returned; only with equal counts is the external linear fit evaluated and
its mapping function, drift (ppm) and index correspondence returned
(together with the mapped, strictly increasing timestamps). -/
theorem widefield_sync_timestamps_length_policy
    (fit : List ℚ → List ℚ → (ℚ → ℚ) × ℚ × List Nat × List Nat)
    (led : List ℚ) (vlen : Nat) (fpga : List ℚ)
    (hd0 : ¬ ((led.length : Int) - (vlen : Int) < 0))
    (hd2 : ¬ ((led.length : Int) - (vlen : Int) > 2)) :
    ((led.take vlen).length ≠ fpga.length →
      widefield_sync_timestamps fit led vlen fpga = .error "Sync mismatch") ∧
    ((led.take vlen).length = fpga.length →
      strictIncB (((led.take vlen).map (fun t => t / 1000)).map
        (fit ((led.take vlen).map (fun t => t / 1000)) fpga).1) = true →
      widefield_sync_timestamps fit led vlen fpga =
        .ok ((fit ((led.take vlen).map (fun t => t / 1000)) fpga).1,
             (fit ((led.take vlen).map (fun t => t / 1000)) fpga).2.1,
             (fit ((led.take vlen).map (fun t => t / 1000)) fpga).2.2.1,
             (fit ((led.take vlen).map (fun t => t / 1000)) fpga).2.2.2,
             ((led.take vlen).map (fun t => t / 1000)).map
               (fit ((led.take vlen).map (fun t => t / 1000)) fpga).1)) := by
  constructor
  · intro hne
    rw [widefield_sync_timestamps]
    rw [if_neg hd0, if_neg hd2, if_pos (by simpa using hne)]
  · intro heq hmono
    rw [widefield_sync_timestamps]
    rw [if_neg hd0, if_neg hd2, if_neg (by simpa using heq)]
    simp only [hmono, if_true]

/-- Witness for `widefield_sync_timestamps_length_policy` with an identity
fit on two equal-length pulse trains. -/
theorem widefield_sync_timestamps_length_policy_witness :
    (¬ ((([(1 : ℚ), 2] : List ℚ).length : Int) - ((2 : Nat) : Int) < 0)) ∧
    (¬ ((([(1 : ℚ), 2] : List ℚ).length : Int) - ((2 : Nat) : Int) > 2)) ∧
    ((([(1 : ℚ), 2] : List ℚ).take 2).length = ([(5 : ℚ), 6] : List ℚ).length) ∧
    strictIncB (((([(1 : ℚ), 2] : List ℚ).take 2).map (fun t => t / 1000)).map
      (fitId ((([(1 : ℚ), 2] : List ℚ).take 2).map (fun t => t / 1000)) [(5 : ℚ), 6]).1)
      = true ∧
    widefield_sync_timestamps fitId [(1 : ℚ), 2] 2 [(5 : ℚ), 6]
      = .ok ((fitId ((([(1 : ℚ), 2] : List ℚ).take 2).map (fun t => t / 1000)) [(5 : ℚ), 6]).1,
             (fitId ((([(1 : ℚ), 2] : List ℚ).take 2).map (fun t => t / 1000)) [(5 : ℚ), 6]).2.1,
             (fitId ((([(1 : ℚ), 2] : List ℚ).take 2).map (fun t => t / 1000)) [(5 : ℚ), 6]).2.2.1,
             (fitId ((([(1 : ℚ), 2] : List ℚ).take 2).map (fun t => t / 1000)) [(5 : ℚ), 6]).2.2.2,
             ((([(1 : ℚ), 2] : List ℚ).take 2).map (fun t => t / 1000)).map
               (fitId ((([(1 : ℚ), 2] : List ℚ).take 2).map (fun t => t / 1000)) [(5 : ℚ), 6]).1) := by
  have hmono : strictIncB (((([(1 : ℚ), 2] : List ℚ).take 2).map (fun t => t / 1000)).map
      (fitId ((([(1 : ℚ), 2] : List ℚ).take 2).map (fun t => t / 1000)) [(5 : ℚ), 6]).1)
      = true := by
    norm_num [strictIncB, fitId]
  exact ⟨by decide, by decide, rfl, hmono,
    (widefield_sync_timestamps_length_policy fitId [(1 : ℚ), 2] 2 [(5 : ℚ), 6]
      (by decide) (by decide)).2 rfl hmono⟩

theorem argmaxAux_lt (l : List ℚ) : ∀ (i best : Nat) (bv : ℚ), best < i →
    argmaxAux l i best bv < i + l.length := by
  induction l with
  | nil =>
    intro i best bv h
    simpa [argmaxAux] using h
  | cons x rest ih =>
    intro i best bv h
    simp only [argmaxAux, List.length_cons]
    by_cases hx : bv < x
    · rw [if_pos hx]
      have := ih (i + 1) i x (Nat.lt_succ_self i)
      omega
    · rw [if_neg hx]
      have := ih (i + 1) best bv (by omega)
      omega

theorem argmaxIdx_lt (l : List ℚ) (h : l ≠ []) : argmaxIdx l < l.length := by
  cases l with
  | nil => exact absurd rfl h
  | cons x rest =>
    simp only [argmaxIdx, List.length_cons]
    have := argmaxAux_lt rest 1 0 x (by omega)
    omega

theorem lagWindow_length_le (row : List ℚ) : (lagWindow row).length ≤ 101 := by
  have h1 : (row.drop (row.length - NXCORR)).length ≤ NXCORR := by
    simp only [List.length_drop, NXCORR]
    omega
  have h2 : (row.take (NXCORR + 1)).length ≤ NXCORR + 1 := List.length_take_le _ _
  simp only [NXCORR] at h1 h2
  simp only [lagWindow, List.length_append, NXCORR]
  omega

/-- Each raw drift entry is the integer-bin peak position inside the
(at most 101-lag) window, shifted by `NXCORR` bins and scaled to µm. -/
theorem raw_drift_bins (xcorr : List (List ℚ)) :
    ∀ r ∈ raw_drift xcorr, ∃ j : Nat, j ≤ 100 ∧ r = ((j : Int) - 50) * 2 := by
  intro r hr
  simp only [raw_drift, List.mem_map] at hr
  obtain ⟨row, hrow, hre⟩ := hr
  refine ⟨argmaxIdx (lagWindow row), ?_, ?_⟩
  · by_cases hwin : lagWindow row = []
    · rw [hwin]
      simp [argmaxIdx]
    · have h1 := argmaxIdx_lt _ hwin
      have h2 := lagWindow_length_le row
      omega
  · rw [← hre]
    simp [NXCORR, DEPTH_BIN_UM]

theorem foldl_add_mul (l : List (ℚ × ℚ)) : ∀ z : ℚ,
    l.foldl (fun acc p => acc + p.1 * p.2) z = z + (l.map (fun p => p.1 * p.2)).sum := by
  induction l with
  | nil => intro z; simp
  | cons x rest ih =>
    intro z
    simp only [List.foldl_cons, List.map_cons, List.sum_cons]
    rw [ih]
    ring

theorem foldl_add_sum (l : List ℚ) : ∀ z : ℚ,
    l.foldl (fun acc q => acc + q) z = z + l.sum := by
  induction l with
  | nil => intro z; simp
  | cons x rest ih =>
    intro z
    simp only [List.foldl_cons, List.sum_cons]
    rw [ih]
    ring

theorem sum_mul_abs_le (l : List (ℚ × ℚ)) (c : ℚ)
    (h : ∀ p ∈ l, |p.1| ≤ c ∧ 0 ≤ p.2) :
    |(l.map (fun p => p.1 * p.2)).sum| ≤ c * (l.map Prod.snd).sum := by
  induction l with
  | nil => simp
  | cons x rest ih =>
    simp only [List.map_cons, List.sum_cons]
    have hx := h x (List.mem_cons_self x rest)
    have hr := ih (fun p hp => h p (List.mem_cons_of_mem x hp))
    have h2 : |x.1 * x.2| = |x.1| * x.2 := by
      rw [abs_mul, abs_of_nonneg hx.2]
    calc |x.1 * x.2 + (rest.map (fun p => p.1 * p.2)).sum|
        ≤ |x.1 * x.2| + |(rest.map (fun p => p.1 * p.2)).sum| := abs_add _ _
      _ ≤ c * x.2 + c * (rest.map Prod.snd).sum := by
          rw [h2]
          exact add_le_add (mul_le_mul_of_nonneg_right hx.1 hx.2) hr
      _ = c * (x.2 + (rest.map Prod.snd).sum) := by ring

theorem zip_snd_sum_le : ∀ (l w : List ℚ), (∀ q ∈ w, 0 ≤ q) →
    ((l.zip w).map Prod.snd).sum ≤ w.sum
  | [], w, hw => by simpa using List.sum_nonneg hw
  | _ :: _, [], _ => by simp
  | x :: xs, y :: ys, hw => by
    simp only [List.zip_cons_cons, List.map_cons, List.sum_cons]
    have := zip_snd_sum_le xs ys (fun q hq => hw q (List.mem_cons_of_mem y hq))
    exact add_le_add_left this y

theorem mem_reflect (x : List ℚ) (k : Nat) (v : ℚ)
    (hv : v ∈ ((x.drop 1).take k).reverse ++ x ++ (x.reverse.take k)) : v ∈ x := by
  rcases List.mem_append.mp hv with h1 | h1
  · rcases List.mem_append.mp h1 with h2 | h2
    · exact List.mem_of_mem_drop (List.mem_of_mem_take (List.mem_reverse.mp h2))
    · exact h2
  · exact List.mem_reverse.mp (List.mem_of_mem_take h1)

/-- A normalized nonnegative-window moving average never exceeds the bound
of its input signal. -/
theorem rolling_window_abs_bound (w x : List ℚ) (c : ℚ)
    (hw : ∀ q ∈ w, 0 ≤ q) (hx : ∀ v ∈ x, |v| ≤ c) (hc : 0 ≤ c) :
    ∀ y ∈ rolling_window w x, |y| ≤ c := by
  intro y hy
  simp only [rolling_window, List.mem_map, List.mem_range] at hy
  obtain ⟨i, hi, hyeq⟩ := hy
  rw [← hyeq]
  have hpair : ∀ p ∈ (((((x.drop 1).take (w.length - 1)).reverse ++ x
      ++ (x.reverse.take (w.length - 1))).drop i).take w.length).zip w,
      |p.1| ≤ c ∧ 0 ≤ p.2 := by
    intro p hp
    obtain ⟨hp1, hp2⟩ := List.of_mem_zip hp
    refine ⟨?_, hw p.2 hp2⟩
    exact hx p.1 (mem_reflect x (w.length - 1) p.1
      (List.mem_of_mem_drop (List.mem_of_mem_take hp1)))
  have hnum := sum_mul_abs_le _ c hpair
  have hzs := zip_snd_sum_le ((((x.drop 1).take (w.length - 1)).reverse ++ x
      ++ (x.reverse.take (w.length - 1))).drop i |>.take w.length) w hw
  have hnum2 : |(((((((x.drop 1).take (w.length - 1)).reverse ++ x
      ++ (x.reverse.take (w.length - 1))).drop i).take w.length).zip w).map
        (fun p => p.1 * p.2)).sum| ≤ c * w.sum :=
    le_trans hnum (mul_le_mul_of_nonneg_left hzs hc)
  rw [foldl_add_mul _ 0, zero_add, foldl_add_sum w 0, zero_add]
  rcases eq_or_lt_of_le (List.sum_nonneg hw) with h0 | h0
  · rw [← h0, div_zero, abs_zero]
    exact hc
  · rw [abs_div, abs_of_pos h0, div_le_iff₀ h0]
    calc _ ≤ c * w.sum := hnum2
      _ = c * w.sum := rfl

/-- C9: every raw per-time-bin depth offset of `estimate_drift` is the
integer-bin position of the cross-correlation peak inside the bounded
±`NXCORR` lag window converted to micrometers, and after the (Hanning)
smoothing every element of the drift output lies within ±100 µm
(`NXCORR * DEPTH_BIN_UM = 50 * 2`). -/
theorem estimate_drift_bounded (w : List ℚ) (xcorr : List (List ℚ))
    (hw : ∀ q ∈ w, 0 ≤ q) :
    (∀ r ∈ raw_drift xcorr, ∃ j : Nat, j ≤ 100 ∧ r = ((j : Int) - 50) * 2) ∧
    (∀ y ∈ estimate_drift w xcorr, |y| ≤ 100) := by
  refine ⟨raw_drift_bins xcorr, ?_⟩
  unfold estimate_drift
  apply rolling_window_abs_bound _ _ _ hw ?_ (by norm_num)
  intro v hv
  simp only [List.mem_map] at hv
  obtain ⟨r, hrm, hre⟩ := hv
  obtain ⟨j, hj, hre2⟩ := raw_drift_bins xcorr r hrm
  rw [← hre, hre2]
  have habs : |((j : Int) - 50) * 2| ≤ (100 : Int) :=
    abs_le.mpr ⟨by omega, by omega⟩
  rw [← Int.cast_abs]
  exact_mod_cast habs

/-- Witness for `estimate_drift_bounded` on a concrete window and
cross-correlation matrix. -/
theorem estimate_drift_bounded_witness :
    (∀ q ∈ [(1 : ℚ), 2, 1], 0 ≤ q) ∧
    ((∀ r ∈ raw_drift [[(3 : ℚ), 1, 2]], ∃ j : Nat, j ≤ 100 ∧ r = ((j : Int) - 50) * 2) ∧
      (∀ y ∈ estimate_drift [(1 : ℚ), 2, 1] [[(3 : ℚ), 1, 2]], |y| ≤ 100)) :=
  ⟨by norm_num, estimate_drift_bounded [(1 : ℚ), 2, 1] [[(3 : ℚ), 1, 2]] (by norm_num)⟩
